import Mathlib

/-!
Verification development for the Globe domain-network graph pipeline.

Shallow embedding of:
  * `graph_builder.py`   (`DomainNetworkBuilder`: normalization, row processing,
    node/edge assembly, statistics)
  * `node_manager.py`    (`NodeManager`: styles, node creation, registry)
  * `unified_html_generator.py` (`_smart_optimize_network`: size-bounded selection)

Strings are modelled as `List Char`; pandas cells are modelled by `Cell`
(absent column / NaN value / string value).  Floats appearing in the source
(style opacity, network density) are modelled as rationals.
-/

namespace Globe

/-- Strings of the embedded program. -/
abbrev Str := List Char

/-- Shorthand to write embedded strings from Lean string literals. -/
def lit (s : String) : Str := s.toList

/-- One pandas cell: the column may be absent from the row, hold a NaN
(missing value), or hold a string. -/
inductive Cell where
  | absent
  | nanV
  | strV (s : Str)
deriving DecidableEq, Repr

/-- `row.get(key, default)`: the default is used only when the column is
absent; a NaN value is returned as-is. -/
def cellGetD (c : Cell) (d : Cell) : Cell :=
  match c with
  | Cell.absent => d
  | x => x

/-- `pd.notna`: true exactly on real (string) values. -/
def cellNotna (c : Cell) : Bool :=
  match c with
  | Cell.strV _ => true
  | _ => false

/-- Python `==` between a cell value and a string literal
(`None == s` and `nan == s` are false). -/
def cellEqStr (c : Cell) (t : Str) : Bool :=
  match c with
  | Cell.strV s => s == t
  | _ => false

/-! ### Character-level helpers for `str.strip / lower / replace / rstrip` -/

/-- ASCII whitespace, the fragment of Python `str.strip` we model. -/
def isWS (c : Char) : Bool :=
  c == ' ' || c == '\t' || c == '\n' || c == '\r'

/-- ASCII lowercasing of one character (Python `str.lower`). -/
def lowerChar (c : Char) : Char :=
  if 'A' ≤ c ∧ c ≤ 'Z' then Char.ofNat (c.toNat + 32) else c

/-- Python `str.lower`. -/
def toLower (s : Str) : Str := s.map lowerChar

/-- Remove trailing characters satisfying `p` (Python `str.rstrip(chars)`). -/
def rstripIf (p : Char → Bool) (s : Str) : Str :=
  (s.reverse.dropWhile p).reverse

/-- Python `str.strip()` (both ends). -/
def stripWS (s : Str) : Str :=
  rstripIf isWS (s.dropWhile isWS)

/-- Does `pat` occur at the head of `s`? -/
def startsWith : Str → Str → Bool
  | [], _ => true
  | _ :: _, [] => false
  | p :: ps, c :: cs => p == c && startsWith ps cs

/-- Does `pat` occur anywhere in `s`? -/
def containsPat (pat : Str) : Str → Bool
  | [] => startsWith pat []
  | c :: rest => startsWith pat (c :: rest) || containsPat pat rest

/-- Does `s` end with `sfx`? -/
def endsWith (sfx s : Str) : Bool :=
  startsWith sfx.reverse s.reverse

/-- Scanner for `str.replace(pat, "")`: `skip` counts characters of a
matched occurrence still to be discarded. -/
def replaceAllAux (pat : Str) : Str → Nat → Str
  | [], _ => []
  | _ :: rest, skip + 1 => replaceAllAux pat rest skip
  | c :: rest, 0 =>
    if startsWith pat (c :: rest) && pat != [] then
      replaceAllAux pat rest (pat.length - 1)
    else
      c :: replaceAllAux pat rest 0

/-- Python `s.replace(pat, "")` for a non-empty `pat`: delete the
non-overlapping occurrences of `pat`, scanning left to right. -/
def replaceAll (pat : Str) (s : Str) : Str := replaceAllAux pat s 0

theorem replaceAllAux_eq_drop (pat : Str) :
    ∀ (s : Str) (k : Nat), replaceAllAux pat s k = replaceAllAux pat (s.drop k) 0
  | [], k => by simp [replaceAllAux]
  | _ :: _, 0 => rfl
  | c :: rest, k + 1 => by
    rw [List.drop_succ_cons]
    exact replaceAllAux_eq_drop pat rest k

/-- The one-step unfolding of `replaceAll` matching the Python scan. -/
theorem replaceAll_cons (pat : Str) (c : Char) (rest : Str) :
    replaceAll pat (c :: rest) =
      if startsWith pat (c :: rest) && pat != [] then
        replaceAll pat (rest.drop (pat.length - 1))
      else
        c :: replaceAll pat rest := by
  show replaceAllAux pat (c :: rest) 0 = _
  rw [show replaceAllAux pat (c :: rest) 0 =
    if startsWith pat (c :: rest) && pat != [] then
      replaceAllAux pat rest (pat.length - 1)
    else c :: replaceAllAux pat rest 0 from rfl]
  rw [replaceAllAux_eq_drop]
  rfl

/-! ### `DomainNetworkBuilder._normalize_domain` -/

def httpsPat : Str := ['h', 't', 't', 'p', 's', ':', '/', '/']
def httpPat : Str := ['h', 't', 't', 'p', ':', '/', '/']
def wwwDot : Str := ['w', 'w', 'w', '.']

/-- Strip one leading `www.` (the `startswith` / `domain[4:]` branch). -/
def stripWWW (s : Str) : Str :=
  if startsWith wwwDot s then s.drop 4 else s

/-- The body of `_normalize_domain` on an actual string:
strip, lower, delete `https://` then `http://`, strip a leading `www.`,
strip trailing `/` characters. -/
def normStr (s : Str) : Str :=
  rstripIf (· == '/')
    (stripWWW (replaceAll httpPat (replaceAll httpsPat (toLower (stripWS s)))))

/-- `_normalize_domain` on a cell: NaN/absent input yields the empty string. -/
def normalizeDomain (c : Cell) : Str :=
  match c with
  | Cell.strV s => normStr s
  | _ => []

/-! ### List parsing (`_parse_domain_list`, `_parse_crypto_list`) -/

/-- Python `str.split(",")`. -/
def splitComma : Str → List Str
  | [] => [[]]
  | c :: rest =>
    if c == ',' then
      [] :: splitComma rest
    else
      match splitComma rest with
      | [] => [[c]]
      | p :: ps => (c :: p) :: ps

/-- `_parse_domain_list`: split on commas, strip and normalize each piece,
drop empty results. -/
def parseDomainList (c : Cell) : List Str :=
  match c with
  | Cell.strV s =>
    ((splitComma s).map fun piece => normStr (stripWS piece)).filter (· ≠ [])
  | _ => []

/-- `_parse_crypto_list`: split on commas, strip each piece, drop empties. -/
def parseCryptoList (c : Cell) : List Str :=
  match c with
  | Cell.strV s => ((splitComma s).map stripWS).filter (· ≠ [])
  | _ => []

/-! ### `node_manager.py`: styles and node data -/

/-- `NodeStyle` (visual styling constants). Opacity is a float in the
source, modelled as a rational. -/
structure NodeStyle where
  size : Nat
  color : Str
  stroke_color : Str
  stroke_width : Nat
  shape : Str
  label_size : Nat
  label_color : Str
  opacity : ℚ
deriving DecidableEq, Repr

/-- The `style` sub-dictionary stored inside every node's metadata. -/
structure StyleMeta where
  stroke_color : Str
  stroke_width : Nat
  label_size : Nat
  label_color : Str
  opacity : ℚ
deriving DecidableEq, Repr

def styleMetaOf (st : NodeStyle) : StyleMeta :=
  { stroke_color := st.stroke_color
    stroke_width := st.stroke_width
    label_size := st.label_size
    label_color := st.label_color
    opacity := st.opacity }

/-- Metadata payload of a domain node (`create_domain_node`). -/
structure DomainMeta where
  domain_type : Str
  ip_address : Cell
  screenshot : Cell
  url : Str
  inreach_intel_summary : Cell
  discovery_method : Cell
  style : StyleMeta
deriving DecidableEq, Repr

/-- Metadata payload of a crypto node (`create_crypto_node`). -/
structure CryptoMeta where
  chain : Str
  full_address : Str
  discovery_method : Cell
  explorer_url : Str
  style : StyleMeta
deriving DecidableEq, Repr

inductive Meta where
  | dom (m : DomainMeta)
  | cry (m : CryptoMeta)
deriving DecidableEq, Repr

/-- `NodeData`. -/
structure NodeData where
  id : Str
  label : Str
  type_ : Str
  node_type : Str
  size : Nat
  color : Str
  shape : Str
  metadata : Meta
deriving DecidableEq, Repr

/-- `NodeManager._initialize_node_styles`, as an association list
(insertion-ordered dictionary). -/
def nodeStyles : List (Str × NodeStyle) :=
  [ (lit "source_domain",
      { size := 30, color := lit "#e74c3c", stroke_color := lit "#c0392b",
        stroke_width := 3, shape := lit "circle", label_size := 16,
        label_color := lit "#2c3e50", opacity := mkRat 9 10 }),
    (lit "lookalike_domain",
      { size := 25, color := lit "#3498db", stroke_color := lit "#2980b9",
        stroke_width := 2, shape := lit "circle", label_size := 14,
        label_color := lit "#2c3e50", opacity := mkRat 8 10 }),
    (lit "same_ip_domain",
      { size := 25, color := lit "#1abc9c", stroke_color := lit "#16a085",
        stroke_width := 2, shape := lit "circle", label_size := 14,
        label_color := lit "#2c3e50", opacity := mkRat 8 10 }),
    (lit "btc_address",
      { size := 35, color := lit "#f39c12", stroke_color := lit "#e67e22",
        stroke_width := 3, shape := lit "square", label_size := 12,
        label_color := lit "#2c3e50", opacity := mkRat 9 10 }),
    (lit "eth_address",
      { size := 30, color := lit "#9b59b6", stroke_color := lit "#8e44ad",
        stroke_width := 2, shape := lit "circle", label_size := 12,
        label_color := lit "#2c3e50", opacity := mkRat 9 10 }),
    (lit "tron_address",
      { size := 30, color := lit "#e74c3c", stroke_color := lit "#c0392b",
        stroke_width := 2, shape := lit "triangle", label_size := 12,
        label_color := lit "#2c3e50", opacity := mkRat 9 10 }) ]

/-- First-match association-list lookup (Python dict access on a dict with
unique keys). -/
def lookupS {α : Type} (k : Str) : List (Str × α) → Option α
  | [] => none
  | (k', v) :: rest => if k = k' then some v else lookupS k rest

/-- Python dict assignment `d[k] = v`: replace in place if the key exists,
otherwise append (insertion order preserved). -/
def dictSet {α : Type} (k : Str) (v : α) : List (Str × α) → List (Str × α)
  | [] => [(k, v)]
  | (k', v') :: rest =>
    if k = k' then (k, v) :: rest else (k', v') :: dictSet k v rest

/-- `styles.get(key, styles["source_domain"])`. -/
def styleForDomain (domain_type : Str) : NodeStyle :=
  (lookupS domain_type nodeStyles).getD
    { size := 30, color := lit "#e74c3c", stroke_color := lit "#c0392b",
      stroke_width := 3, shape := lit "circle", label_size := 16,
      label_color := lit "#2c3e50", opacity := mkRat 9 10 }

/-- The `btc_address` style, the fallback of `create_crypto_node`. -/
def btcStyle : NodeStyle :=
  { size := 35, color := lit "#f39c12", stroke_color := lit "#e67e22",
    stroke_width := 3, shape := lit "square", label_size := 12,
    label_color := lit "#2c3e50", opacity := mkRat 9 10 }

/-- `styles.get(node_type, styles["btc_address"])`. -/
def styleForCrypto (node_type : Str) : NodeStyle :=
  (lookupS node_type nodeStyles).getD btcStyle

/-- Domain label: delete protocol prefixes and `www.` anywhere, then
truncate to 22 chars plus `...` when longer than 25. -/
def domainLabel (domain_id : Str) : Str :=
  let label := replaceAll wwwDot (replaceAll httpPat (replaceAll httpsPat domain_id))
  if label.length > 25 then label.take 22 ++ lit "..." else label

/-- Crypto label: `first6...last6` when the address is longer than 12 chars. -/
def cryptoLabel (address : Str) : Str :=
  if address.length > 12 then
    address.take 6 ++ lit "..." ++ address.drop (address.length - 6)
  else
    address

/-- Arguments of the metadata dictionary handed to `create_domain_node`
(all keys are always present at the call sites in `graph_builder.py`). -/
structure DomainMetaArgs where
  ip_address : Cell
  screenshot : Cell
  url : Str
  inreach_intel_summary : Cell
  discovery_method : Cell
deriving DecidableEq, Repr

/-- `NodeManager.create_domain_node`, the constructed value. -/
def mkDomainNode (domain_id : Str) (domain_type : Str) (m : DomainMetaArgs) :
    NodeData :=
  let style := styleForDomain domain_type
  { id := domain_id
    label := domainLabel domain_id
    type_ := lit "domain"
    node_type := domain_type
    size := style.size
    color := style.color
    shape := style.shape
    metadata := Meta.dom
      { domain_type := domain_type
        ip_address := m.ip_address
        screenshot := m.screenshot
        url := m.url
        inreach_intel_summary := m.inreach_intel_summary
        discovery_method := m.discovery_method
        style := styleMetaOf style } }

/-- `NodeManager.create_crypto_node`, the constructed value, given the
chain as an actual string `chain` (`chain.lower()` has succeeded).
The `source_domain` key of the metadata argument is not read by the source
function, so it is not a parameter here. -/
def mkCryptoNode (address : Str) (chain : Str) (discovery_method : Cell) :
    NodeData :=
  let node_type := toLower chain ++ lit "_address"
  let style := styleForCrypto node_type
  { id := address
    label := cryptoLabel address
    type_ := lit "crypto"
    node_type := node_type
    size := style.size
    color := style.color
    shape := style.shape
    metadata := Meta.cry
      { chain := chain
        full_address := address
        discovery_method := discovery_method
        explorer_url :=
          lit "https://alterya_rnd.alterya.io/explorer/" ++ chain ++
            ['/'] ++ address ++ lit "/overview"
        style := styleMetaOf style } }

/-! ### `graph_builder.py`: rows, edges, builder state -/

/-- One CSV row, restricted to the columns the builder reads. -/
structure Row where
  source_domain : Cell := Cell.absent
  lookalike_domain : Cell := Cell.absent
  same_ip_domain : Cell := Cell.absent
  crypto_address : Cell := Cell.absent
  chain : Cell := Cell.absent
  ips : Cell := Cell.absent
  screenshot : Cell := Cell.absent
  inreach_intel_summary : Cell := Cell.absent
  discovery_method : Cell := Cell.absent
deriving DecidableEq, Repr

/-- One edge dictionary appended to `self.edges`. Domain edges carry no
`chain` key (`none`); crypto edges carry the raw chain cell. -/
structure Edge where
  source : Str
  target : Str
  type_ : Str
  discovery_method : Cell
  color : Str
  chain : Option Cell := none
deriving DecidableEq, Repr

/-- `_get_edge_color`. -/
def edgeColorMap : List (Str × Str) :=
  [ (lit "lookalike_domain", lit "#3498db"),
    (lit "same_ip_domain", lit "#f39c12"),
    (lit "domain_to_crypto", lit "#e74c3c") ]

def getEdgeColor (edge_type : Str) : Str :=
  (lookupS edge_type edgeColorMap).getD (lit "#95a5a6")

/-- Mutable state of one `DomainNetworkBuilder`: the node-manager registry,
the edge list, the NetworkX graph (node set and deduplicated undirected
edge-key set), and the row counters. -/
structure BState where
  nodes : List (Str × NodeData) := []
  edges : List Edge := []
  gnodes : List Str := []
  gedges : List (Str × Str) := []
  processedRows : Nat := 0
  skippedRows : Nat := 0
deriving DecidableEq, Repr

def emptyState : BState := {}

/-- `nx.Graph.add_node`: insert the node key if absent. -/
def addGNode (n : Str) (l : List Str) : List Str :=
  if n ∈ l then l else l ++ [n]

/-- Undirected comparison of NetworkX edge keys. -/
def sameEdge (p q : Str × Str) : Bool :=
  (p.1 == q.1 && p.2 == q.2) || (p.1 == q.2 && p.2 == q.1)

/-- `nx.Graph.add_edge u v`: add both endpoints, then the undirected edge
key if no parallel edge exists yet (attributes are overwritten, which the
model does not track beyond existence). -/
def addGEdge (u v : Str) (st : BState) : BState :=
  { st with
    gnodes := addGNode v (addGNode u st.gnodes)
    gedges :=
      if st.gedges.any (sameEdge (u, v)) then st.gedges
      else st.gedges ++ [(u, v)] }

/-- `_create_or_get_domain_node`: return the registered node when the key
exists, otherwise create and register a fresh one. -/
def createOrGetDomain (st : BState) (domain : Str) (domain_type : Str)
    (m : DomainMetaArgs) : NodeData × BState :=
  match lookupS domain st.nodes with
  | some n => (n, st)
  | none =>
    let n := mkDomainNode domain domain_type m
    (n, { st with nodes := dictSet domain n st.nodes })

/-- The metadata dictionary built at both domain-node call sites of
`_process_row` / `_create_domain_relationship`. -/
def domainMetaArgsOf (r : Row) (url : Str) : DomainMetaArgs :=
  { ip_address := cellGetD r.ips (Cell.strV [])
    screenshot := cellGetD r.screenshot (Cell.strV [])
    url := url
    inreach_intel_summary := cellGetD r.inreach_intel_summary (Cell.strV [])
    discovery_method := cellGetD r.discovery_method (Cell.strV []) }

/-- `_create_domain_relationship`. -/
def createDomainRel (source_domain : Str) (target_raw : Str)
    (relationship_type : Str) (r : Row) (st : BState) : BState :=
  let target_domain := normStr target_raw
  if target_domain = [] ∨ target_domain = source_domain then st
  else
    let (_, st) :=
      createOrGetDomain st target_domain relationship_type
        (domainMetaArgsOf r target_domain)
    let e : Edge :=
      { source := source_domain
        target := target_domain
        type_ := relationship_type
        discovery_method := cellGetD r.discovery_method (Cell.strV [])
        color := getEdgeColor relationship_type }
    addGEdge source_domain target_domain { st with edges := st.edges ++ [e] }

/-- `_create_crypto_relationship`.  When the address is new and the chain
cell is not a string, `chain.lower()` inside `create_crypto_node` raises
(`some ()` in the second component) before any mutation. -/
def createCryptoRel (source_domain : Str) (crypto_address : Str)
    (chain : Cell) (r : Row) (st : BState) : BState × Option Unit :=
  if crypto_address = [] then (st, none)
  else
    match lookupS crypto_address st.nodes with
    | some _ =>
      -- existing node: no creation, straight to the edge
      let e : Edge :=
        { source := source_domain
          target := crypto_address
          type_ := lit "domain_to_crypto"
          chain := some chain
          discovery_method := cellGetD r.discovery_method (Cell.strV [])
          color := getEdgeColor (lit "domain_to_crypto") }
      (addGEdge source_domain crypto_address { st with edges := st.edges ++ [e] },
        none)
    | none =>
      match chain with
      | Cell.strV chainS =>
        let n := mkCryptoNode crypto_address chainS
          (cellGetD r.discovery_method (Cell.strV []))
        let st :=
          { st with nodes := dictSet crypto_address n st.nodes }
        let e : Edge :=
          { source := source_domain
            target := crypto_address
            type_ := lit "domain_to_crypto"
            chain := some chain
            discovery_method := cellGetD r.discovery_method (Cell.strV [])
            color := getEdgeColor (lit "domain_to_crypto") }
        (addGEdge source_domain crypto_address { st with edges := st.edges ++ [e] },
          none)
      | _ => (st, some ())   -- AttributeError: nan has no .lower()

/-- The crypto loop of `_process_row`: an exception aborts the rest of the
row but the state mutated so far is kept. -/
def processCryptoLoop (source_domain : Str) (chain : Cell) (r : Row) :
    List Str → BState → BState × Option Unit
  | [], st => (st, none)
  | a :: rest, st =>
    match createCryptoRel source_domain a chain r st with
    | (st', none) => processCryptoLoop source_domain chain r rest st'
    | (st', some e) => (st', some e)

/-- `_process_row`.  The second component records a raised exception. -/
def processRow (r : Row) (st : BState) : BState × Option Unit :=
  let source_domain := normalizeDomain r.source_domain
  if source_domain = [] then (st, none)
  else
    let (_, st) :=
      createOrGetDomain st source_domain (lit "source_domain")
        (domainMetaArgsOf r source_domain)
    let st :=
      if cellNotna (cellGetD r.lookalike_domain Cell.absent) then
        (parseDomainList r.lookalike_domain).foldl
          (fun acc d => createDomainRel source_domain d (lit "lookalike_domain") r acc)
          st
      else st
    let st :=
      if cellNotna (cellGetD r.same_ip_domain Cell.absent) then
        (parseDomainList r.same_ip_domain).foldl
          (fun acc d => createDomainRel source_domain d (lit "same_ip_domain") r acc)
          st
      else st
    if cellNotna (cellGetD r.crypto_address Cell.absent) then
      let chain := cellGetD r.chain (Cell.strV (lit "BTC"))
      processCryptoLoop source_domain chain r (parseCryptoList r.crypto_address) st
    else
      (st, none)

/-- The row loop of `build_graph`: a normal return bumps `processed_rows`,
an exception is caught and bumps `skipped_rows`; the (possibly already
mutated) state is kept either way. -/
def buildLoop : List Row → BState → BState
  | [], st => st
  | r :: rest, st =>
    match processRow r st with
    | (st', none) =>
      buildLoop rest { st' with processedRows := st'.processedRows + 1 }
    | (st', some _) =>
      buildLoop rest { st' with skippedRows := st'.skippedRows + 1 }

/-- `_add_node_attributes_to_graph`: add every registry node to the graph. -/
def addNodeAttrs (st : BState) : BState :=
  { st with gnodes := st.nodes.foldl (fun g kv => addGNode kv.1 g) st.gnodes }

/-- `collections`-style counting dictionary bump. -/
def bumpCount (k : Str) : List (Str × Nat) → List (Str × Nat)
  | [] => [(k, 1)]
  | (k', c) :: rest =>
    if k = k' then (k, c + 1) :: rest else (k', c) :: bumpCount k rest

/-- `_generate_statistics` output. -/
structure Stats where
  nodes : Nat
  edges : Nat
  processed_rows : Nat
  skipped_rows : Nat
  node_breakdown : List (Str × Nat)
  edge_breakdown : List (Str × Nat)
  network_density : ℚ
deriving DecidableEq, Repr

/-- `nx.density` on an undirected graph: `0` when `m = 0` or `n ≤ 1`,
else `2m / (n(n-1))`. -/
def nxDensity (st : BState) : ℚ :=
  let n := st.gnodes.length
  let m := st.gedges.length
  if m = 0 ∨ n ≤ 1 then 0
  else mkRat (2 * (m : Int)) (n * (n - 1))

/-- `_generate_statistics`. -/
def genStats (st : BState) : Stats :=
  { nodes := st.nodes.length
    edges := st.edges.length
    processed_rows := st.processedRows
    skipped_rows := st.skippedRows
    node_breakdown := st.nodes.foldl (fun acc kv => bumpCount kv.2.node_type acc) []
    edge_breakdown := st.edges.foldl (fun acc e => bumpCount e.type_ acc) []
    network_density := if st.gnodes.length > 0 then nxDensity st else 0 }

/-- The snapshot `build_graph` returns. -/
structure Snapshot where
  nodes : List NodeData
  links : List Edge
  statistics : Stats
deriving DecidableEq, Repr

/-- The builder state at the end of `build_graph` (after the row loop and
`_add_node_attributes_to_graph`). -/
def buildState (df : List Row) : BState :=
  addNodeAttrs (buildLoop df emptyState)

/-- `build_graph`. -/
def buildGraph (df : List Row) : Snapshot :=
  let st := buildState df
  { nodes := st.nodes.map (·.2)
    links := st.edges
    statistics := genStats st }

/-! ### `unified_html_generator.py`: `_smart_optimize_network` -/

/-- A node dictionary of the D3 graph data, restricted to the keys the
selector reads (`id`, `type`, `node_type`, `domain_type`; the latter three
may be absent depending on the node's origin). -/
structure GNode where
  id : Str
  type_ : Cell := Cell.absent
  node_type : Cell := Cell.absent
  domain_type : Cell := Cell.absent
deriving DecidableEq, Repr

/-- `link["source"]` in node-link data is either a plain id string or a
node object. -/
inductive NodeRef where
  | strRef (s : Str)
  | objRef (n : GNode)
deriving DecidableEq, Repr

/-- `link["source"] if isinstance(link["source"], str) else link["source"]["id"]`. -/
def refId (r : NodeRef) : Str :=
  match r with
  | NodeRef.strRef s => s
  | NodeRef.objRef n => n.id

/-- A link dictionary (payload beyond the endpoints kept abstractly). -/
structure GLink where
  source : NodeRef
  target : NodeRef
  type_ : Cell := Cell.absent
deriving DecidableEq, Repr

structure GraphData where
  nodes : List GNode
  links : List GLink
deriving DecidableEq, Repr

/-- `domain_type = node.get("domain_type") or node.get("node_type", "")`.
`None` and the empty string are falsy; a NaN float is truthy. -/
def domainTypeOf (n : GNode) : Cell :=
  match n.domain_type with
  | Cell.strV s => if s = [] then cellGetD n.node_type (Cell.strV []) else Cell.strV s
  | Cell.nanV => Cell.nanV
  | Cell.absent => cellGetD n.node_type (Cell.strV [])

/-- `node_type = node.get("type", "")` (the local variable of the loop). -/
def typeOf (n : GNode) : Cell :=
  cellGetD n.type_ (Cell.strV [])

/-- The `if/elif` priority chain of `_smart_optimize_network`. -/
def isPriority (n : GNode) : Bool :=
  if cellEqStr (domainTypeOf n) (lit "source_domain") then true
  else if cellEqStr (typeOf n) (lit "crypto") then true
  else if cellEqStr (domainTypeOf n) (lit "lookalike_domain") then true
  else false

/-- Scanner for the Python slice `l[::k]`: `skip` counts elements still to
be passed over before the next pick. -/
def everyNthAux (k : Nat) : List α → Nat → List α
  | [], _ => []
  | _ :: rest, skip + 1 => everyNthAux k rest skip
  | a :: rest, 0 => a :: everyNthAux k rest (k - 1)

/-- Python slice `l[::k]` for `k ≥ 1`: every `k`-th element starting at 0. -/
def everyNth (k : Nat) (l : List α) : List α := everyNthAux k l 0

theorem everyNthAux_eq_drop (k : Nat) :
    ∀ (l : List α) (j : Nat), everyNthAux k l j = everyNthAux k (l.drop j) 0
  | [], j => by simp [everyNthAux]
  | _ :: _, 0 => rfl
  | a :: rest, j + 1 => by
    rw [List.drop_succ_cons]
    exact everyNthAux_eq_drop k rest j

theorem everyNth_cons (k : Nat) (a : α) (rest : List α) :
    everyNth k (a :: rest) = a :: everyNth k (rest.drop (k - 1)) := by
  show a :: everyNthAux k rest (k - 1) = _
  rw [everyNthAux_eq_drop]
  rfl

/-- `_smart_optimize_network`. -/
def smartOptimizeNetwork (gd : GraphData) : GraphData :=
  let nodes := gd.nodes
  let links := gd.links
  let priorityNodes := nodes.filter isPriority
  let otherNodes := nodes.filter (fun n => !(isPriority n))
  let selectedNodes :=
    if otherNodes.length > 1500 then
      let sameIpNodes :=
        otherNodes.filter (fun n => cellEqStr n.domain_type (lit "same_ip_domain"))
      let targetSameIp := if sameIpNodes.length > 2000 then 1000 else 1200
      let sampleRate := max 1 (sameIpNodes.length / targetSameIp)
      let selectedSameIp := everyNth sampleRate sameIpNodes
      priorityNodes ++ selectedSameIp
    else
      priorityNodes ++ otherNodes
  let nodeIds := selectedNodes.map (·.id)
  let filteredLinks :=
    links.filter fun l => nodeIds.elem (refId l.source) && nodeIds.elem (refId l.target)
  { nodes := selectedNodes, links := filteredLinks }

/-! ### Association-list lemmas -/

theorem lookupS_nil {α : Type} (k : Str) : lookupS (α := α) k [] = none := rfl

theorem lookupS_cons {α : Type} (k k' : Str) (v' : α) (rest : List (Str × α)) :
    lookupS k ((k', v') :: rest) = if k = k' then some v' else lookupS k rest := rfl

theorem lookupS_append_of_some {α : Type} {k : Str} {v : α}
    {l l₂ : List (Str × α)} (h : lookupS k l = some v) :
    lookupS k (l ++ l₂) = some v := by
  induction l with
  | nil => rw [lookupS_nil] at h; exact absurd h (by simp)
  | cons kv rest ih =>
    obtain ⟨k', v'⟩ := kv
    rw [lookupS_cons] at h
    rw [List.cons_append, lookupS_cons]
    by_cases hk : k = k'
    · rw [if_pos hk] at h ⊢; exact h
    · rw [if_neg hk] at h ⊢; exact ih h

theorem mem_keys_of_lookupS_some {α : Type} {k : Str} {v : α}
    {l : List (Str × α)} (h : lookupS k l = some v) :
    k ∈ l.map Prod.fst := by
  induction l with
  | nil => rw [lookupS_nil] at h; exact absurd h (by simp)
  | cons kv rest ih =>
    obtain ⟨k', v'⟩ := kv
    rw [lookupS_cons] at h
    by_cases hk : k = k'
    · exact List.mem_map.mpr ⟨(k', v'), List.mem_cons_self _ _, hk.symm⟩
    · rw [if_neg hk] at h
      exact List.mem_map.mpr
        (by
          obtain ⟨p, hp, he⟩ := List.mem_map.mp (ih h)
          exact ⟨p, List.mem_cons_of_mem _ hp, he⟩)

theorem not_mem_keys_of_lookupS_none {α : Type} {k : Str}
    {l : List (Str × α)} (h : lookupS k l = none) :
    k ∉ l.map Prod.fst := by
  induction l with
  | nil => simp
  | cons kv rest ih =>
    obtain ⟨k', v'⟩ := kv
    rw [lookupS_cons] at h
    by_cases hk : k = k'
    · rw [if_pos hk] at h; exact absurd h (by simp)
    · rw [if_neg hk] at h
      intro hm
      rcases List.mem_map.mp hm with ⟨p, hp, he⟩
      rcases List.mem_cons.mp hp with h1 | h1
      · exact hk (by rw [h1] at he; exact he.symm)
      · exact ih h (List.mem_map.mpr ⟨p, h1, he⟩)

theorem dictSet_of_lookupS_none {α : Type} {k : Str} {v : α}
    {l : List (Str × α)} (h : lookupS k l = none) :
    dictSet k v l = l ++ [(k, v)] := by
  induction l with
  | nil => rfl
  | cons kv rest ih =>
    obtain ⟨k', v'⟩ := kv
    rw [lookupS_cons] at h
    by_cases hk : k = k'
    · rw [if_pos hk] at h; exact absurd h (by simp)
    · rw [if_neg hk] at h
      show (if k = k' then _ else _) = _
      rw [if_neg hk, ih h, List.cons_append]

/-! ### Node-registry persistence (no entry is ever overwritten) -/

/-- Every key→node binding of `st` survives into `st'`. -/
def NPreserve (st st' : BState) : Prop :=
  ∀ k v, lookupS k st.nodes = some v → lookupS k st'.nodes = some v

theorem npreserve_refl {st : BState} : NPreserve st st := fun _ _ h => h

theorem npreserve_trans {st₁ st₂ st₃ : BState}
    (h12 : NPreserve st₁ st₂) (h23 : NPreserve st₂ st₃) : NPreserve st₁ st₃ :=
  fun k v h => h23 k v (h12 k v h)

theorem npreserve_createOrGetDomain (st : BState) (d t : Str) (m : DomainMetaArgs) :
    NPreserve st (createOrGetDomain st d t m).2 := by
  intro k v h
  unfold createOrGetDomain
  cases hd : lookupS d st.nodes with
  | some n => simpa using h
  | none =>
    simp only [dictSet_of_lookupS_none hd]
    exact lookupS_append_of_some h

theorem nodes_addGEdge (u v : Str) (st : BState) :
    (addGEdge u v st).nodes = st.nodes := rfl

theorem npreserve_createDomainRel (s d t : Str) (r : Row) (st : BState) :
    NPreserve st (createDomainRel s d t r st) := by
  unfold createDomainRel
  by_cases hg : normStr d = [] ∨ normStr d = s
  · simp only [if_pos hg]; exact npreserve_refl
  · simp only [if_neg hg]
    intro k v h
    exact npreserve_createOrGetDomain st (normStr d) t (domainMetaArgsOf r (normStr d)) k v h

theorem npreserve_foldlRel (s t : Str) (r : Row) :
    ∀ (l : List Str) (st : BState),
      NPreserve st (l.foldl (fun acc d => createDomainRel s d t r acc) st)
  | [], st => npreserve_refl
  | d :: rest, st => by
    simp only [List.foldl_cons]
    exact npreserve_trans (npreserve_createDomainRel s d t r st)
      (npreserve_foldlRel s t r rest (createDomainRel s d t r st))

theorem npreserve_createCryptoRel (s a : Str) (c : Cell) (r : Row) (st : BState) :
    NPreserve st (createCryptoRel s a c r st).1 := by
  unfold createCryptoRel
  by_cases ha : a = []
  · simp only [if_pos ha]; exact npreserve_refl
  · simp only [if_neg ha]
    cases hl : lookupS a st.nodes with
    | some n => intro k v h; simpa using h
    | none =>
      cases c with
      | strV cs =>
        intro k v h
        simp only [nodes_addGEdge, dictSet_of_lookupS_none hl]
        exact lookupS_append_of_some h
      | absent => exact npreserve_refl
      | nanV => exact npreserve_refl

theorem npreserve_cryptoLoop (s : Str) (c : Cell) (r : Row) :
    ∀ (l : List Str) (st : BState),
      NPreserve st (processCryptoLoop s c r l st).1
  | [], st => npreserve_refl
  | a :: rest, st => by
    simp only [processCryptoLoop]
    cases hc : createCryptoRel s a c r st with
    | mk st' e =>
      cases e with
      | none =>
        simp only
        have h1 : NPreserve st st' := by
          have := npreserve_createCryptoRel s a c r st
          rwa [hc] at this
        exact npreserve_trans h1 (npreserve_cryptoLoop s c r rest st')
      | some u =>
        simp only
        have := npreserve_createCryptoRel s a c r st
        rwa [hc] at this

theorem npreserve_relStage (s t : Str) (r : Row) (c : Bool) (l : List Str)
    (x : BState) :
    NPreserve x
      (if c = true then l.foldl (fun acc d => createDomainRel s d t r acc) x else x) := by
  split
  · exact npreserve_foldlRel s t r l x
  · exact npreserve_refl

theorem npreserve_cryptoStage (s : Str) (c : Cell) (r : Row) (b : Bool)
    (l : List Str) (x : BState) :
    NPreserve x
      ((if b = true then processCryptoLoop s c r l x else (x, none)).1) := by
  split
  · exact npreserve_cryptoLoop s c r l x
  · exact npreserve_refl

theorem npreserve_processRow (r : Row) (st : BState) :
    NPreserve st (processRow r st).1 := by
  unfold processRow
  by_cases hs : normalizeDomain r.source_domain = []
  · simp only [if_pos hs]; exact npreserve_refl
  · simp only [if_neg hs]
    exact npreserve_trans (npreserve_createOrGetDomain st _ _ _)
      (npreserve_trans (npreserve_relStage _ _ r _ _ _)
        (npreserve_trans (npreserve_relStage _ _ r _ _ _)
          (npreserve_cryptoStage _ _ r _ _ _)))

theorem npreserve_buildLoop :
    ∀ (rows : List Row) (st : BState), NPreserve st (buildLoop rows st)
  | [], st => npreserve_refl
  | r :: rest, st => by
    simp only [buildLoop]
    cases hp : processRow r st with
    | mk st' e =>
      have h1 : NPreserve st st' := by
        have := npreserve_processRow r st
        rwa [hp] at this
      cases e with
      | none =>
        have h2 : NPreserve st' { st' with processedRows := st'.processedRows + 1 } :=
          fun k v h => h
        exact npreserve_trans h1 (npreserve_trans h2 (npreserve_buildLoop rest _))
      | some u =>
        have h2 : NPreserve st' { st' with skippedRows := st'.skippedRows + 1 } :=
          fun k v h => h
        exact npreserve_trans h1 (npreserve_trans h2 (npreserve_buildLoop rest _))

/-! ### The registry's keys stay duplicate-free -/

/-- The registry of `st` has pairwise-distinct keys. -/
def NodupKeys (st : BState) : Prop :=
  (st.nodes.map Prod.fst).Nodup

theorem nodup_append_singleton {α : Type} {l : List α} {a : α}
    (hl : l.Nodup) (ha : a ∉ l) : (l ++ [a]).Nodup := by
  simp [List.nodup_append, hl, ha]

theorem nodupKeys_createOrGetDomain (st : BState) (d t : Str) (m : DomainMetaArgs)
    (h : NodupKeys st) : NodupKeys (createOrGetDomain st d t m).2 := by
  unfold createOrGetDomain
  cases hd : lookupS d st.nodes with
  | some n => simpa using h
  | none =>
    simp only
    unfold NodupKeys
    simp only [dictSet_of_lookupS_none hd, List.map_append, List.map_cons, List.map_nil]
    exact nodup_append_singleton h (not_mem_keys_of_lookupS_none hd)

theorem nodupKeys_createDomainRel (s d t : Str) (r : Row) (st : BState)
    (h : NodupKeys st) : NodupKeys (createDomainRel s d t r st) := by
  unfold createDomainRel
  by_cases hg : normStr d = [] ∨ normStr d = s
  · simpa [if_pos hg] using h
  · simp only [if_neg hg]
    exact nodupKeys_createOrGetDomain st (normStr d) t (domainMetaArgsOf r (normStr d)) h

theorem nodupKeys_foldlRel (s t : Str) (r : Row) :
    ∀ (l : List Str) (st : BState), NodupKeys st →
      NodupKeys (l.foldl (fun acc d => createDomainRel s d t r acc) st)
  | [], st, h => h
  | d :: rest, st, h => by
    simp only [List.foldl_cons]
    exact nodupKeys_foldlRel s t r rest _ (nodupKeys_createDomainRel s d t r st h)

theorem nodupKeys_createCryptoRel (s a : Str) (c : Cell) (r : Row) (st : BState)
    (h : NodupKeys st) : NodupKeys (createCryptoRel s a c r st).1 := by
  unfold createCryptoRel
  by_cases ha : a = []
  · simpa [if_pos ha] using h
  · simp only [if_neg ha]
    cases hl : lookupS a st.nodes with
    | some n => simpa using h
    | none =>
      cases c with
      | strV cs =>
        simp only [nodes_addGEdge]
        unfold NodupKeys
        simp only [nodes_addGEdge, dictSet_of_lookupS_none hl, List.map_append,
          List.map_cons, List.map_nil]
        exact nodup_append_singleton h (not_mem_keys_of_lookupS_none hl)
      | absent => exact h
      | nanV => exact h

theorem nodupKeys_cryptoLoop (s : Str) (c : Cell) (r : Row) :
    ∀ (l : List Str) (st : BState), NodupKeys st →
      NodupKeys (processCryptoLoop s c r l st).1
  | [], st, h => h
  | a :: rest, st, h => by
    simp only [processCryptoLoop]
    cases hc : createCryptoRel s a c r st with
    | mk st' e =>
      have h' : NodupKeys st' := by
        have := nodupKeys_createCryptoRel s a c r st h
        rwa [hc] at this
      cases e with
      | none => exact nodupKeys_cryptoLoop s c r rest st' h'
      | some u => exact h'

theorem nodupKeys_processRow (r : Row) (st : BState) (h : NodupKeys st) :
    NodupKeys (processRow r st).1 := by
  unfold processRow
  by_cases hs : normalizeDomain r.source_domain = []
  · simpa [if_pos hs] using h
  · simp only [if_neg hs]
    have h1 := nodupKeys_createOrGetDomain st (normalizeDomain r.source_domain)
      (lit "source_domain") (domainMetaArgsOf r (normalizeDomain r.source_domain)) h
    have h2 : ∀ (c : Bool) (t : Str) (l : List Str) (x : BState), NodupKeys x →
        NodupKeys (if c = true then
          l.foldl (fun acc d => createDomainRel (normalizeDomain r.source_domain) d t r acc) x
        else x) := by
      intro c t l x hx
      split
      · exact nodupKeys_foldlRel _ t r l x hx
      · exact hx
    have h3 : ∀ (b : Bool) (ch : Cell) (l : List Str) (x : BState), NodupKeys x →
        NodupKeys ((if b = true then
          processCryptoLoop (normalizeDomain r.source_domain) ch r l x
        else (x, none)).1) := by
      intro b ch l x hx
      split
      · exact nodupKeys_cryptoLoop _ ch r l x hx
      · exact hx
    exact h3 _ _ _ _ (h2 _ _ _ _ (h2 _ _ _ _ h1))

theorem nodupKeys_buildLoop :
    ∀ (rows : List Row) (st : BState), NodupKeys st → NodupKeys (buildLoop rows st)
  | [], _, h => h
  | r :: rest, st, h => by
    simp only [buildLoop]
    cases hp : processRow r st with
    | mk st' e =>
      have h' : NodupKeys st' := by
        have := nodupKeys_processRow r st h
        rwa [hp] at this
      cases e with
      | none => exact nodupKeys_buildLoop rest _ h'
      | some u => exact nodupKeys_buildLoop rest _ h'

/-! ### C2 -/

/-- C2: after `build`, the node registry has exactly one entry per distinct
key (pairwise-distinct keys), and an entity registered by an earlier row is
never mutated or replaced by later rows (first-write-wins). -/
theorem registry_unique_first_write_wins :
    (∀ df : List Row, ((buildState df).nodes.map Prod.fst).Nodup) ∧
    (∀ (rows : List Row) (st : BState) (k : Str) (v : NodeData),
      lookupS k st.nodes = some v → lookupS k (buildLoop rows st).nodes = some v) := by
  constructor
  · intro df
    have h0 : NodupKeys emptyState := by simp [NodupKeys, emptyState]
    have h := nodupKeys_buildLoop df emptyState h0
    simpa [buildState, addNodeAttrs, NodupKeys] using h
  · intro rows st k v h
    exact npreserve_buildLoop rows st k v h

def rowD1W : Row :=
  { source_domain := Cell.strV (lit "a.com"),
    lookalike_domain := Cell.strV (lit "b.com"),
    discovery_method := Cell.strV (lit "intel1") }

def rowD2W : Row :=
  { source_domain := Cell.strV (lit "a.com"),
    lookalike_domain := Cell.strV (lit "c.com"),
    discovery_method := Cell.strV (lit "intel2") }

def stAfterD1 : BState := buildLoop [rowD1W] emptyState

def nodeAW : NodeData :=
  mkDomainNode (lit "a.com") (lit "source_domain")
    (domainMetaArgsOf rowD1W (lit "a.com"))

/-- Witness for C2: a second row referencing `a.com` with a different
`discovery_method` leaves the entity created by the first row untouched. -/
theorem registry_unique_first_write_wins_witness :
    ((buildState [rowD1W, rowD2W]).nodes.map Prod.fst).Nodup ∧
    lookupS (lit "a.com") (buildLoop [rowD2W] stAfterD1).nodes = some nodeAW :=
  ⟨registry_unique_first_write_wins.1 [rowD1W, rowD2W],
   registry_unique_first_write_wins.2 [rowD2W] stAfterD1 (lit "a.com") nodeAW
     (by decide)⟩

/-! ### C3: self-loop analysis -/

/-- Every edge is either a crypto edge or has distinct endpoints. -/
def EdgesOk (st : BState) : Prop :=
  ∀ e ∈ st.edges, e.type_ = lit "domain_to_crypto" ∨ e.source ≠ e.target

theorem edges_createOrGetDomain (st : BState) (d t : Str) (m : DomainMetaArgs) :
    (createOrGetDomain st d t m).2.edges = st.edges := by
  unfold createOrGetDomain
  cases lookupS d st.nodes <;> rfl

theorem edgesOk_createDomainRel (s d t : Str) (r : Row) (st : BState)
    (h : EdgesOk st) : EdgesOk (createDomainRel s d t r st) := by
  unfold createDomainRel
  by_cases hg : normStr d = [] ∨ normStr d = s
  · simpa [if_pos hg] using h
  · simp only [if_neg hg]
    intro e he
    simp only [addGEdge] at he
    rw [edges_createOrGetDomain] at he
    rcases List.mem_append.mp he with h1 | h1
    · exact h e h1
    · right
      have : e.target ≠ e.source := by
        simp only [List.mem_singleton] at h1
        subst h1
        push_neg at hg
        exact hg.2
      exact this.symm

theorem edgesOk_foldlRel (s t : Str) (r : Row) :
    ∀ (l : List Str) (st : BState), EdgesOk st →
      EdgesOk (l.foldl (fun acc d => createDomainRel s d t r acc) st)
  | [], _, h => h
  | d :: rest, st, h => by
    simp only [List.foldl_cons]
    exact edgesOk_foldlRel s t r rest _ (edgesOk_createDomainRel s d t r st h)

theorem edgesOk_createCryptoRel (s a : Str) (c : Cell) (r : Row) (st : BState)
    (h : EdgesOk st) : EdgesOk (createCryptoRel s a c r st).1 := by
  unfold createCryptoRel
  by_cases ha : a = []
  · simpa [if_pos ha] using h
  · simp only [if_neg ha]
    cases hl : lookupS a st.nodes with
    | some n =>
      intro e he
      simp only [addGEdge] at he
      rcases List.mem_append.mp he with h1 | h1
      · exact h e h1
      · left
        simp only [List.mem_singleton] at h1
        subst h1
        rfl
    | none =>
      cases c with
      | strV cs =>
        intro e he
        simp only [addGEdge] at he
        rcases List.mem_append.mp he with h1 | h1
        · exact h e h1
        · left
          simp only [List.mem_singleton] at h1
          subst h1
          rfl
      | absent => exact h
      | nanV => exact h

theorem edgesOk_cryptoLoop (s : Str) (c : Cell) (r : Row) :
    ∀ (l : List Str) (st : BState), EdgesOk st →
      EdgesOk (processCryptoLoop s c r l st).1
  | [], _, h => h
  | a :: rest, st, h => by
    simp only [processCryptoLoop]
    cases hc : createCryptoRel s a c r st with
    | mk st' e =>
      have h' : EdgesOk st' := by
        have := edgesOk_createCryptoRel s a c r st h
        rwa [hc] at this
      cases e with
      | none => exact edgesOk_cryptoLoop s c r rest st' h'
      | some u => exact h'

theorem edgesOk_processRow (r : Row) (st : BState) (h : EdgesOk st) :
    EdgesOk (processRow r st).1 := by
  unfold processRow
  by_cases hs : normalizeDomain r.source_domain = []
  · simpa [if_pos hs] using h
  · simp only [if_neg hs]
    have h1 : EdgesOk (createOrGetDomain st (normalizeDomain r.source_domain)
        (lit "source_domain")
        (domainMetaArgsOf r (normalizeDomain r.source_domain))).2 := by
      unfold EdgesOk
      rw [edges_createOrGetDomain]
      exact h
    have h2 : ∀ (c : Bool) (t : Str) (l : List Str) (x : BState), EdgesOk x →
        EdgesOk (if c = true then
          l.foldl (fun acc d => createDomainRel (normalizeDomain r.source_domain) d t r acc) x
        else x) := by
      intro c t l x hx
      split
      · exact edgesOk_foldlRel _ t r l x hx
      · exact hx
    have h3 : ∀ (b : Bool) (ch : Cell) (l : List Str) (x : BState), EdgesOk x →
        EdgesOk ((if b = true then
          processCryptoLoop (normalizeDomain r.source_domain) ch r l x
        else (x, none)).1) := by
      intro b ch l x hx
      split
      · exact edgesOk_cryptoLoop _ ch r l x hx
      · exact hx
    exact h3 _ _ _ _ (h2 _ _ _ _ (h2 _ _ _ _ h1))

theorem edgesOk_buildLoop :
    ∀ (rows : List Row) (st : BState), EdgesOk st → EdgesOk (buildLoop rows st)
  | [], _, h => h
  | r :: rest, st, h => by
    simp only [buildLoop]
    cases hp : processRow r st with
    | mk st' e =>
      have h' : EdgesOk st' := by
        have := edgesOk_processRow r st h
        rwa [hp] at this
      cases e with
      | none => exact edgesOk_buildLoop rest _ h'
      | some u => exact edgesOk_buildLoop rest _ h'

/-- C3 (amended): every domain-to-domain edge in the built output has
distinct endpoints; only `domain_to_crypto` edges can be self-loops. -/
theorem no_self_loop_except_crypto (df : List Row) (e : Edge)
    (he : e ∈ (buildGraph df).links) :
    e.type_ = lit "domain_to_crypto" ∨ e.source ≠ e.target := by
  have h0 : EdgesOk emptyState := by intro e h; simp [emptyState] at h
  have h := edgesOk_buildLoop df emptyState h0
  have he' : e ∈ (buildLoop df emptyState).edges := by
    simpa [buildGraph, buildState, addNodeAttrs] using he
  exact h e he'

def rowSelfW : Row :=
  { source_domain := Cell.strV (lit "1a2b3c"),
    crypto_address := Cell.strV (lit "1a2b3c") }

/-- Counterexample for C3 as stated: a row whose trimmed crypto address
equals its normalized source domain produces a self-loop edge. -/
theorem self_loop_crypto_edge_exists :
    ((buildGraph [rowSelfW]).links.any fun e => e.source == e.target) = true := by
  decide

def rowABW : Row :=
  { source_domain := Cell.strV (lit "a.com"),
    lookalike_domain := Cell.strV (lit "b.com") }

/-- Witness for the amended C3 at a concrete edge of a concrete build. -/
theorem no_self_loop_except_crypto_witness :
    ({ source := lit "a.com", target := lit "b.com",
       type_ := lit "lookalike_domain",
       discovery_method := Cell.strV [],
       color := lit "#3498db" } : Edge).type_ = lit "domain_to_crypto" ∨
    ({ source := lit "a.com", target := lit "b.com",
       type_ := lit "lookalike_domain",
       discovery_method := Cell.strV [],
       color := lit "#3498db" } : Edge).source ≠
      ({ source := lit "a.com", target := lit "b.com",
         type_ := lit "lookalike_domain",
         discovery_method := Cell.strV [],
         color := lit "#3498db" } : Edge).target :=
  no_self_loop_except_crypto [rowABW] _ (by decide)

/-! ### C7: rows whose source normalizes to the empty string -/

/-- C7 (amended): a row whose `source_domain` normalizes to the empty
string is skipped without creating anything, returns normally, and is
counted by the processed-row counter (not the skipped-row counter, which
only counts rows that raise). -/
theorem empty_source_row_counts_processed :
    (∀ (r : Row) (st : BState), normalizeDomain r.source_domain = [] →
      processRow r st = (st, none)) ∧
    (∀ (r : Row) (rest : List Row) (st : BState),
      normalizeDomain r.source_domain = [] →
      buildLoop (r :: rest) st =
        buildLoop rest { st with processedRows := st.processedRows + 1 }) := by
  have h1 : ∀ (r : Row) (st : BState), normalizeDomain r.source_domain = [] →
      processRow r st = (st, none) := by
    intro r st h
    unfold processRow
    rw [if_pos h]
  refine ⟨h1, ?_⟩
  intro r rest st h
  simp only [buildLoop, h1 r st h]

def rowSlashW : Row :=
  { source_domain := Cell.strV (lit "/"),
    lookalike_domain := Cell.strV (lit "a.com") }

/-- Counterexample for C7 as stated: the row `source_domain = "/"`
normalizes to empty, creates nothing, yet increments `processed_rows`
and leaves `skipped_rows` at zero. -/
theorem empty_source_row_not_skipped_counter :
    (buildGraph [rowSlashW]).statistics.skipped_rows = 0 ∧
    (buildGraph [rowSlashW]).statistics.processed_rows = 1 ∧
    (buildGraph [rowSlashW]).nodes = [] ∧
    (buildGraph [rowSlashW]).links = [] := by decide

/-- Witness for C7's amended theorem at a concrete row and state. -/
theorem empty_source_row_counts_processed_witness :
    processRow rowSlashW emptyState = (emptyState, none) ∧
    buildLoop [rowSlashW] emptyState =
      buildLoop [] { emptyState with processedRows := emptyState.processedRows + 1 } :=
  ⟨empty_source_row_counts_processed.1 rowSlashW emptyState (by decide),
   empty_source_row_counts_processed.2 rowSlashW [] emptyState (by decide)⟩

/-! ### C10: skipping is not atomic -/

/-- The edge list of `st'` extends the edge list of `st`. -/
def EExtend (st st' : BState) : Prop :=
  ∃ tail, st'.edges = st.edges ++ tail

theorem eextend_refl {st : BState} : EExtend st st := ⟨[], by simp⟩

theorem eextend_trans {st₁ st₂ st₃ : BState}
    (h12 : EExtend st₁ st₂) (h23 : EExtend st₂ st₃) : EExtend st₁ st₃ := by
  obtain ⟨t1, h1⟩ := h12
  obtain ⟨t2, h2⟩ := h23
  exact ⟨t1 ++ t2, by rw [h2, h1, List.append_assoc]⟩

theorem eextend_createDomainRel (s d t : Str) (r : Row) (st : BState) :
    EExtend st (createDomainRel s d t r st) := by
  unfold createDomainRel
  by_cases hg : normStr d = [] ∨ normStr d = s
  · simp only [if_pos hg]; exact eextend_refl
  · simp only [if_neg hg]
    refine ⟨[{ source := s, target := normStr d, type_ := t,
               discovery_method := cellGetD r.discovery_method (Cell.strV []),
               color := getEdgeColor t }], ?_⟩
    show (createOrGetDomain st (normStr d) t (domainMetaArgsOf r (normStr d))).2.edges
        ++ _ = st.edges ++ _
    rw [edges_createOrGetDomain]

theorem eextend_foldlRel (s t : Str) (r : Row) :
    ∀ (l : List Str) (st : BState),
      EExtend st (l.foldl (fun acc d => createDomainRel s d t r acc) st)
  | [], _ => eextend_refl
  | d :: rest, st => by
    simp only [List.foldl_cons]
    exact eextend_trans (eextend_createDomainRel s d t r st)
      (eextend_foldlRel s t r rest _)

theorem eextend_createCryptoRel (s a : Str) (c : Cell) (r : Row) (st : BState) :
    EExtend st (createCryptoRel s a c r st).1 := by
  unfold createCryptoRel
  by_cases ha : a = []
  · simp only [if_pos ha]; exact eextend_refl
  · simp only [if_neg ha]
    cases hl : lookupS a st.nodes with
    | some n => exact ⟨[_], rfl⟩
    | none =>
      cases c with
      | strV cs => exact ⟨[_], rfl⟩
      | absent => exact eextend_refl
      | nanV => exact eextend_refl

theorem eextend_cryptoLoop (s : Str) (c : Cell) (r : Row) :
    ∀ (l : List Str) (st : BState),
      EExtend st (processCryptoLoop s c r l st).1
  | [], _ => eextend_refl
  | a :: rest, st => by
    simp only [processCryptoLoop]
    cases hc : createCryptoRel s a c r st with
    | mk st' e =>
      have h1 : EExtend st st' := by
        have := eextend_createCryptoRel s a c r st
        rwa [hc] at this
      cases e with
      | none => exact eextend_trans h1 (eextend_cryptoLoop s c r rest st')
      | some u => exact h1

theorem eextend_processRow (r : Row) (st : BState) :
    EExtend st (processRow r st).1 := by
  unfold processRow
  by_cases hs : normalizeDomain r.source_domain = []
  · simp only [if_pos hs]; exact eextend_refl
  · simp only [if_neg hs]
    have h1 : ∀ (x : BState) (d t : Str) (m : DomainMetaArgs),
        EExtend x (createOrGetDomain x d t m).2 := by
      intro x d t m
      exact ⟨[], by rw [edges_createOrGetDomain, List.append_nil]⟩
    have h2 : ∀ (c : Bool) (t : Str) (l : List Str) (x : BState),
        EExtend x (if c = true then
          l.foldl (fun acc d => createDomainRel (normalizeDomain r.source_domain) d t r acc) x
        else x) := by
      intro c t l x
      split
      · exact eextend_foldlRel _ t r l x
      · exact eextend_refl
    have h3 : ∀ (b : Bool) (ch : Cell) (l : List Str) (x : BState),
        EExtend x ((if b = true then
          processCryptoLoop (normalizeDomain r.source_domain) ch r l x
        else (x, none)).1) := by
      intro b ch l x
      split
      · exact eextend_cryptoLoop _ ch r l x
      · exact eextend_refl
    exact eextend_trans (h1 st _ _ _) (eextend_trans (h2 _ _ _ _)
      (eextend_trans (h2 _ _ _ _) (h3 _ _ _ _)))

def rowFailW : Row :=
  { source_domain := Cell.strV (lit "evil.com"),
    lookalike_domain := Cell.strV (lit "x.com"),
    crypto_address := Cell.strV (lit "addr1"),
    chain := Cell.nanV }

/-- C10: a row whose crypto section raises (NaN `chain` hits
`chain.lower()`) is counted as skipped, yet the source node, the lookalike
node and the lookalike edge created before the failure all remain in the
snapshot; in general a row never rolls back edges appended before a
failure. -/
theorem row_skip_not_atomic :
    ((buildGraph [rowFailW]).statistics.skipped_rows = 1 ∧
     (buildGraph [rowFailW]).statistics.processed_rows = 0 ∧
     (buildGraph [rowFailW]).nodes.map NodeData.id = [lit "evil.com", lit "x.com"] ∧
     (buildGraph [rowFailW]).links.map (fun e => (e.source, e.target, e.type_)) =
       [(lit "evil.com", lit "x.com", lit "lookalike_domain")]) ∧
    (∀ (r : Row) (st : BState), ∃ tail, ((processRow r st).1).edges = st.edges ++ tail) := by
  constructor
  · exact ⟨by decide, by decide, by decide, by decide⟩
  · intro r st
    exact eextend_processRow r st

/-! ### C8: the graph node count equals the registry node count -/

theorem lookupS_exists_of_mem_keys {α : Type} {k : Str} {l : List (Str × α)}
    (h : k ∈ l.map Prod.fst) : ∃ v, lookupS k l = some v := by
  induction l with
  | nil => simp at h
  | cons kv rest ih =>
    obtain ⟨k', v'⟩ := kv
    rw [lookupS_cons]
    by_cases hk : k = k'
    · exact ⟨v', if_pos hk⟩
    · rw [if_neg hk]
      rcases List.mem_map.mp h with ⟨p, hp, he⟩
      rcases List.mem_cons.mp hp with h1 | h1
      · exact absurd (by rw [h1] at he; exact he.symm) hk
      · exact ih (List.mem_map.mpr ⟨p, h1, he⟩)

theorem keys_mono_of_npreserve {st st' : BState} (h : NPreserve st st') :
    ∀ k, k ∈ st.nodes.map Prod.fst → k ∈ st'.nodes.map Prod.fst := by
  intro k hk
  obtain ⟨v, hv⟩ := lookupS_exists_of_mem_keys hk
  exact mem_keys_of_lookupS_some (h k v hv)

theorem lookupS_append_right {α : Type} {k : Str} {l l₂ : List (Str × α)}
    (h : lookupS k l = none) : lookupS k (l ++ l₂) = lookupS k l₂ := by
  induction l with
  | nil => rfl
  | cons kv rest ih =>
    obtain ⟨k', v'⟩ := kv
    rw [lookupS_cons] at h
    by_cases hk : k = k'
    · rw [if_pos hk] at h; exact absurd h (by simp)
    · rw [if_neg hk] at h
      rw [List.cons_append, lookupS_cons, if_neg hk]
      exact ih h

theorem mem_keys_createOrGetDomain_self (st : BState) (d t : Str)
    (m : DomainMetaArgs) :
    d ∈ (createOrGetDomain st d t m).2.nodes.map Prod.fst := by
  unfold createOrGetDomain
  cases hd : lookupS d st.nodes with
  | some n => exact mem_keys_of_lookupS_some hd
  | none =>
    simp only [dictSet_of_lookupS_none hd]
    refine mem_keys_of_lookupS_some (v := mkDomainNode d t m) ?_
    rw [lookupS_append_right hd, lookupS_cons, if_pos rfl]

theorem mem_addGNode {x y : Str} {l : List Str} :
    y ∈ addGNode x l ↔ y = x ∨ y ∈ l := by
  unfold addGNode
  split
  · constructor
    · intro h; exact Or.inr h
    · intro h
      rcases h with h | h
      · subst h; assumption
      · exact h
  · simp [List.mem_append, or_comm]

theorem nodup_addGNode {x : Str} {l : List Str} (h : l.Nodup) :
    (addGNode x l).Nodup := by
  unfold addGNode
  split
  · exact h
  · exact nodup_append_singleton h (by assumption)

/-- Every NetworkX graph node key is a registry key, and the graph node
list is duplicate-free. -/
def GNodesOk (st : BState) : Prop :=
  (∀ x ∈ st.gnodes, x ∈ st.nodes.map Prod.fst) ∧ st.gnodes.Nodup

theorem gnodesOk_addGEdge {u v : Str} {st : BState}
    (hu : u ∈ st.nodes.map Prod.fst) (hv : v ∈ st.nodes.map Prod.fst)
    (h : GNodesOk st) : GNodesOk (addGEdge u v st) := by
  obtain ⟨hm, hd⟩ := h
  constructor
  · intro x hx
    have hx' : x = v ∨ x = u ∨ x ∈ st.gnodes := by
      have h1 := mem_addGNode.mp hx
      rcases h1 with h1 | h1
      · exact Or.inl h1
      · rcases mem_addGNode.mp h1 with h2 | h2
        · exact Or.inr (Or.inl h2)
        · exact Or.inr (Or.inr h2)
    rcases hx' with h1 | h1 | h1
    · subst h1; exact hv
    · subst h1; exact hu
    · exact hm x h1
  · exact nodup_addGNode (nodup_addGNode hd)

theorem gnodes_createOrGetDomain (st : BState) (d t : Str) (m : DomainMetaArgs) :
    (createOrGetDomain st d t m).2.gnodes = st.gnodes := by
  unfold createOrGetDomain
  cases lookupS d st.nodes <;> rfl

theorem gnodesOk_createOrGetDomain (st : BState) (d t : Str) (m : DomainMetaArgs)
    (h : GNodesOk st) : GNodesOk (createOrGetDomain st d t m).2 := by
  obtain ⟨hm, hd⟩ := h
  constructor
  · intro x hx
    rw [gnodes_createOrGetDomain] at hx
    exact keys_mono_of_npreserve (npreserve_createOrGetDomain st d t m) x (hm x hx)
  · rw [gnodes_createOrGetDomain]; exact hd

theorem gnodesOk_createDomainRel (s d t : Str) (r : Row) (st : BState)
    (hs : s ∈ st.nodes.map Prod.fst) (h : GNodesOk st) :
    GNodesOk (createDomainRel s d t r st) := by
  unfold createDomainRel
  by_cases hg : normStr d = [] ∨ normStr d = s
  · simpa [if_pos hg] using h
  · simp only [if_neg hg]
    set st2 := (createOrGetDomain st (normStr d) t (domainMetaArgsOf r (normStr d))).2
      with hst2
    have h2 : GNodesOk st2 := gnodesOk_createOrGetDomain st _ t _ h
    have hs2 : s ∈ st2.nodes.map Prod.fst :=
      keys_mono_of_npreserve (npreserve_createOrGetDomain st _ t _) s hs
    have htgt : normStr d ∈ st2.nodes.map Prod.fst :=
      mem_keys_createOrGetDomain_self st (normStr d) t _
    exact gnodesOk_addGEdge hs2 htgt h2

theorem gnodesOk_foldlRel (s t : Str) (r : Row) :
    ∀ (l : List Str) (st : BState),
      s ∈ st.nodes.map Prod.fst → GNodesOk st →
      GNodesOk (l.foldl (fun acc d => createDomainRel s d t r acc) st)
  | [], _, _, h => h
  | d :: rest, st, hs, h => by
    simp only [List.foldl_cons]
    exact gnodesOk_foldlRel s t r rest _
      (keys_mono_of_npreserve (npreserve_createDomainRel s d t r st) s hs)
      (gnodesOk_createDomainRel s d t r st hs h)

theorem gnodesOk_createCryptoRel (s a : Str) (c : Cell) (r : Row) (st : BState)
    (hs : s ∈ st.nodes.map Prod.fst) (h : GNodesOk st) :
    GNodesOk (createCryptoRel s a c r st).1 := by
  unfold createCryptoRel
  by_cases ha : a = []
  · simpa [if_pos ha] using h
  · simp only [if_neg ha]
    cases hl : lookupS a st.nodes with
    | some n =>
      exact gnodesOk_addGEdge hs (mem_keys_of_lookupS_some hl) h
    | none =>
      cases c with
      | strV cs =>
        have hnodes : (dictSet a (mkCryptoNode a cs
            (cellGetD r.discovery_method (Cell.strV []))) st.nodes) =
            st.nodes ++ [(a, mkCryptoNode a cs (cellGetD r.discovery_method (Cell.strV [])))] :=
          dictSet_of_lookupS_none hl
        refine gnodesOk_addGEdge ?_ ?_ ?_
        · show s ∈ (dictSet a _ st.nodes).map Prod.fst
          rw [hnodes, List.map_append]
          exact List.mem_append_left _ hs
        · show a ∈ (dictSet a _ st.nodes).map Prod.fst
          refine mem_keys_of_lookupS_some (v := mkCryptoNode a cs
            (cellGetD r.discovery_method (Cell.strV []))) ?_
          rw [hnodes, lookupS_append_right hl, lookupS_cons, if_pos rfl]
        · obtain ⟨hm, hd⟩ := h
          constructor
          · intro x hx
            show x ∈ (dictSet a _ st.nodes).map Prod.fst
            rw [hnodes, List.map_append]
            exact List.mem_append_left _ (hm x hx)
          · exact hd
      | absent => exact h
      | nanV => exact h

theorem gnodesOk_cryptoLoop (s : Str) (c : Cell) (r : Row) :
    ∀ (l : List Str) (st : BState),
      s ∈ st.nodes.map Prod.fst → GNodesOk st →
      GNodesOk (processCryptoLoop s c r l st).1
  | [], _, _, h => h
  | a :: rest, st, hs, h => by
    simp only [processCryptoLoop]
    cases hc : createCryptoRel s a c r st with
    | mk st' e =>
      have h' : GNodesOk st' := by
        have := gnodesOk_createCryptoRel s a c r st hs h
        rwa [hc] at this
      have hs' : s ∈ st'.nodes.map Prod.fst := by
        have := keys_mono_of_npreserve (npreserve_createCryptoRel s a c r st) s hs
        rwa [hc] at this
      cases e with
      | none => exact gnodesOk_cryptoLoop s c r rest st' hs' h'
      | some u => exact h'

theorem gnodesOk_processRow (r : Row) (st : BState) (h : GNodesOk st) :
    GNodesOk (processRow r st).1 := by
  unfold processRow
  by_cases hs : normalizeDomain r.source_domain = []
  · simpa [if_pos hs] using h
  · simp only [if_neg hs]
    set src := normalizeDomain r.source_domain
    have h1 : GNodesOk (createOrGetDomain st src (lit "source_domain")
        (domainMetaArgsOf r src)).2 :=
      gnodesOk_createOrGetDomain st src _ _ h
    have hs1 : src ∈ (createOrGetDomain st src (lit "source_domain")
        (domainMetaArgsOf r src)).2.nodes.map Prod.fst :=
      mem_keys_createOrGetDomain_self st src _ _
    have h2 : ∀ (c : Bool) (t : Str) (l : List Str) (x : BState),
        src ∈ x.nodes.map Prod.fst → GNodesOk x →
        src ∈ (if c = true then
            l.foldl (fun acc d => createDomainRel src d t r acc) x
          else x).nodes.map Prod.fst ∧
        GNodesOk (if c = true then
            l.foldl (fun acc d => createDomainRel src d t r acc) x
          else x) := by
      intro c t l x hx hgx
      split
      · constructor
        · exact keys_mono_of_npreserve (npreserve_foldlRel src t r l x) src hx
        · exact gnodesOk_foldlRel src t r l x hx hgx
      · exact ⟨hx, hgx⟩
    have h3 : ∀ (b : Bool) (ch : Cell) (l : List Str) (x : BState),
        src ∈ x.nodes.map Prod.fst → GNodesOk x →
        GNodesOk ((if b = true then processCryptoLoop src ch r l x
          else (x, none)).1) := by
      intro b ch l x hx hgx
      split
      · exact gnodesOk_cryptoLoop src ch r l x hx hgx
      · exact hgx
    obtain ⟨ha1, ha2⟩ := h2 _ (lit "lookalike_domain") _ _ hs1 h1
    obtain ⟨hb1, hb2⟩ := h2 _ (lit "same_ip_domain") _ _ ha1 ha2
    exact h3 _ _ _ _ hb1 hb2

theorem gnodesOk_buildLoop :
    ∀ (rows : List Row) (st : BState), GNodesOk st → GNodesOk (buildLoop rows st)
  | [], _, h => h
  | r :: rest, st, h => by
    simp only [buildLoop]
    cases hp : processRow r st with
    | mk st' e =>
      have h' : GNodesOk st' := by
        have := gnodesOk_processRow r st h
        rwa [hp] at this
      cases e with
      | none => exact gnodesOk_buildLoop rest _ h'
      | some u => exact gnodesOk_buildLoop rest _ h'

theorem mem_foldl_addGNode :
    ∀ (ps : List (Str × NodeData)) (g : List Str) (x : Str),
      x ∈ ps.foldl (fun g kv => addGNode kv.1 g) g ↔
        x ∈ g ∨ x ∈ ps.map Prod.fst
  | [], g, x => by simp
  | kv :: rest, g, x => by
    simp only [List.foldl_cons]
    rw [mem_foldl_addGNode rest (addGNode kv.1 g) x, mem_addGNode]
    simp only [List.map_cons, List.mem_cons]
    tauto

theorem nodup_foldl_addGNode :
    ∀ (ps : List (Str × NodeData)) (g : List Str), g.Nodup →
      (ps.foldl (fun g kv => addGNode kv.1 g) g).Nodup
  | [], _, h => h
  | kv :: rest, g, h => by
    simp only [List.foldl_cons]
    exact nodup_foldl_addGNode rest _ (nodup_addGNode h)

theorem length_eq_of_nodup_mem_iff {l₁ l₂ : List Str}
    (h₁ : l₁.Nodup) (h₂ : l₂.Nodup) (h : ∀ x, x ∈ l₁ ↔ x ∈ l₂) :
    l₁.length = l₂.length := by
  rw [← List.toFinset_card_of_nodup h₁, ← List.toFinset_card_of_nodup h₂]
  congr 1
  ext a
  simp [h a]

/-- After `build_graph`, the NetworkX node count equals the registry count. -/
theorem gnodes_length_buildState (df : List Row) :
    (buildState df).gnodes.length = (buildState df).nodes.length := by
  have h0 : GNodesOk emptyState := ⟨by intro x hx; simp [emptyState] at hx, by simp [emptyState]⟩
  have hloop := gnodesOk_buildLoop df emptyState h0
  have hkeys : NodupKeys (buildLoop df emptyState) :=
    nodupKeys_buildLoop df emptyState (by simp [NodupKeys, emptyState])
  obtain ⟨hm, hd⟩ := hloop
  have hmem : ∀ x, x ∈ (buildState df).gnodes ↔
      x ∈ (buildState df).nodes.map Prod.fst := by
    intro x
    show x ∈ (buildLoop df emptyState).nodes.foldl (fun g kv => addGNode kv.1 g)
        (buildLoop df emptyState).gnodes ↔ _
    rw [mem_foldl_addGNode]
    constructor
    · intro h
      rcases h with h | h
      · exact hm x h
      · exact h
    · intro h
      exact Or.inr h
  have hnd : (buildState df).gnodes.Nodup := nodup_foldl_addGNode _ _ hd
  have hndk : ((buildState df).nodes.map Prod.fst).Nodup := hkeys
  calc (buildState df).gnodes.length
      = ((buildState df).nodes.map Prod.fst).length :=
        length_eq_of_nodup_mem_iff hnd hndk hmem
    _ = (buildState df).nodes.length := List.length_map _ _

/-- C8 (amended): `network_density` equals `2·E'/(N(N−1))` where `N` is the
reported node count and `E'` is the number of distinct undirected endpoint
pairs stored in the NetworkX graph (0 when `N ≤ 1` or `E' = 0`); for the
concrete one-row build with `N = 4` and three distinct edges the density
is `1/2`. -/
theorem network_density_formula (df : List Row) :
    ((buildGraph df).statistics.network_density =
      if (buildState df).gedges.length = 0 ∨ (buildGraph df).statistics.nodes ≤ 1
      then 0
      else 2 * ((buildState df).gedges.length : ℚ) /
        (((buildGraph df).statistics.nodes : ℚ) *
          (((buildGraph df).statistics.nodes : ℚ) - 1))) ∧
    (buildGraph
        [{ source_domain := Cell.strV (lit "a.com"),
           lookalike_domain := Cell.strV (lit "b.com,c.com,d.com") }]
      ).statistics.network_density = mkRat 1 2 := by
  constructor
  · have hN : (buildGraph df).statistics.nodes = (buildState df).nodes.length := rfl
    have hlen := gnodes_length_buildState df
    show (if (buildState df).gnodes.length > 0 then nxDensity (buildState df) else 0) = _
    rw [hN]
    set m := (buildState df).gedges.length with hm
    set N := (buildState df).nodes.length with hNdef
    unfold nxDensity
    rw [← hm, hlen]
    by_cases h0 : N = 0
    · rw [h0]
      simp
    · have hpos : N > 0 := Nat.pos_of_ne_zero h0
      rw [if_pos hpos]
      by_cases hc : m = 0 ∨ N ≤ 1
      · rw [if_pos hc, if_pos hc]
      · rw [if_neg hc, if_neg hc]
        push_neg at hc
        have hN2 : 2 ≤ N := by omega
        rw [Rat.mkRat_eq_divInt, Rat.divInt_eq_div]
        push_cast
        rw [Nat.cast_sub (by omega : 1 ≤ N)]
        push_cast
        ring
  · decide

/-- Counterexample for C8 as stated: two identical rows produce a reported
edge count of 2 but a single distinct endpoint pair, and the computed
density is 1, not `2·E/(N(N−1)) = 2`. -/
theorem network_density_not_raw_edges :
    (buildGraph [rowABW, rowABW]).statistics.nodes = 2 ∧
    (buildGraph [rowABW, rowABW]).statistics.edges = 2 ∧
    (buildGraph [rowABW, rowABW]).statistics.network_density = 1 ∧
    (buildGraph [rowABW, rowABW]).statistics.network_density ≠
      2 * ((buildGraph [rowABW, rowABW]).statistics.edges : ℚ) /
        (((buildGraph [rowABW, rowABW]).statistics.nodes : ℚ) *
          (((buildGraph [rowABW, rowABW]).statistics.nodes : ℚ) - 1)) := by
  have h1 : (buildGraph [rowABW, rowABW]).statistics.nodes = 2 := by decide
  have h2 : (buildGraph [rowABW, rowABW]).statistics.edges = 2 := by decide
  have h3 : (buildGraph [rowABW, rowABW]).statistics.network_density = 1 := by decide
  refine ⟨h1, h2, h3, ?_⟩
  rw [h1, h2, h3]
  norm_num

/-! ### C9: chain and style of created crypto entities -/

/-- The chain string `_process_row` hands to the crypto path:
the row's `chain` column, defaulting to `"BTC"` when the column is absent
(a NaN cell never reaches a created node: `chain.lower()` raises first). -/
def chainStrOf (r : Row) : Str :=
  match cellGetD r.chain (Cell.strV (lit "BTC")) with
  | Cell.strV s => s
  | _ => []

/-- Every node registered by the step `st → st'` under a previously-unbound
key and typed `crypto` was built by `create_crypto_node` from the chain
cell `c`. -/
def NewCryptoOk (c : Cell) (st st' : BState) : Prop :=
  ∀ k n, lookupS k st.nodes = none → lookupS k st'.nodes = some n →
    n.type_ = lit "crypto" →
    ∃ (s : Str) (m : CryptoMeta), c = Cell.strV s ∧ n.metadata = Meta.cry m ∧
      m.chain = s ∧ n.node_type = toLower s ++ lit "_address" ∧
      n.size = (styleForCrypto n.node_type).size ∧
      n.color = (styleForCrypto n.node_type).color ∧
      n.shape = (styleForCrypto n.node_type).shape

theorem NewCryptoOk.of_nodes_eq {c : Cell} {st st' : BState}
    (h : st'.nodes = st.nodes) : NewCryptoOk c st st' := by
  intro k n h0 h1 _
  rw [h, h0] at h1
  exact absurd h1 (by simp)

theorem newCryptoOk_trans {c : Cell} {st₁ st₂ st₃ : BState}
    (h12 : NewCryptoOk c st₁ st₂) (h23 : NewCryptoOk c st₂ st₃)
    (hp : NPreserve st₂ st₃) : NewCryptoOk c st₁ st₃ := by
  intro k n h1 h3 ht
  cases h2 : lookupS k st₂.nodes with
  | none => exact h23 k n h2 h3 ht
  | some v =>
    have hv := hp k v h2
    obtain rfl : n = v := Option.some.inj (h3.symm.trans hv)
    exact h12 k n h1 h2 ht

theorem newCryptoOk_createOrGetDomain (c : Cell) (st : BState) (d t : Str)
    (m : DomainMetaArgs) : NewCryptoOk c st (createOrGetDomain st d t m).2 := by
  intro k n h0 h1 ht
  unfold createOrGetDomain at h1
  cases hd : lookupS d st.nodes with
  | some v =>
    rw [hd] at h1
    simp only at h1
    rw [h0] at h1
    exact absurd h1 (by simp)
  | none =>
    rw [hd] at h1
    simp only [dictSet_of_lookupS_none hd] at h1
    rw [lookupS_append_right h0, lookupS_cons] at h1
    by_cases hk : k = d
    · rw [if_pos hk] at h1
      obtain rfl : n = mkDomainNode d t m := (Option.some.inj h1).symm
      have hne : ¬ (lit "domain" = lit "crypto") := by decide
      exact absurd ht hne
    · rw [if_neg hk] at h1
      exact absurd h1 (by simp [lookupS])

theorem newCryptoOk_createDomainRel (c : Cell) (s d t : Str) (r : Row)
    (st : BState) : NewCryptoOk c st (createDomainRel s d t r st) := by
  unfold createDomainRel
  by_cases hg : normStr d = [] ∨ normStr d = s
  · simp only [if_pos hg]; exact NewCryptoOk.of_nodes_eq rfl
  · simp only [if_neg hg]
    intro k n h0 h1 ht
    refine newCryptoOk_createOrGetDomain c st (normStr d) t
      (domainMetaArgsOf r (normStr d)) k n h0 ?_ ht
    exact h1

theorem newCryptoOk_foldlRel (c : Cell) (s t : Str) (r : Row) :
    ∀ (l : List Str) (st : BState),
      NewCryptoOk c st (l.foldl (fun acc d => createDomainRel s d t r acc) st)
  | [], st => NewCryptoOk.of_nodes_eq rfl
  | d :: rest, st => by
    simp only [List.foldl_cons]
    exact newCryptoOk_trans (newCryptoOk_createDomainRel c s d t r st)
      (newCryptoOk_foldlRel c s t r rest _)
      (npreserve_foldlRel s t r rest _)

theorem newCryptoOk_createCryptoRel (s a : Str) (c : Cell) (r : Row)
    (st : BState) : NewCryptoOk c st (createCryptoRel s a c r st).1 := by
  unfold createCryptoRel
  by_cases ha : a = []
  · simp only [if_pos ha]; exact NewCryptoOk.of_nodes_eq rfl
  · simp only [if_neg ha]
    cases hl : lookupS a st.nodes with
    | some v => exact NewCryptoOk.of_nodes_eq rfl
    | none =>
      cases c with
      | strV cs =>
        intro k n h0 h1 ht
        simp only [nodes_addGEdge] at h1
        rw [dictSet_of_lookupS_none hl, lookupS_append_right h0, lookupS_cons] at h1
        by_cases hk : k = a
        · rw [if_pos hk] at h1
          have hn : n = mkCryptoNode a cs (cellGetD r.discovery_method (Cell.strV [])) := by
            injection h1 with h; exact h.symm
          subst hn
          exact ⟨cs, _, rfl, rfl, rfl, rfl, rfl, rfl, rfl⟩
        · rw [if_neg hk] at h1
          exact absurd h1 (by simp [lookupS])
      | absent => exact NewCryptoOk.of_nodes_eq rfl
      | nanV => exact NewCryptoOk.of_nodes_eq rfl

theorem newCryptoOk_cryptoLoop (s : Str) (c : Cell) (r : Row) :
    ∀ (l : List Str) (st : BState),
      NewCryptoOk c st (processCryptoLoop s c r l st).1
  | [], st => NewCryptoOk.of_nodes_eq rfl
  | a :: rest, st => by
    simp only [processCryptoLoop]
    cases hc : createCryptoRel s a c r st with
    | mk st' e =>
      have h1 : NewCryptoOk c st st' := by
        have := newCryptoOk_createCryptoRel s a c r st
        rwa [hc] at this
      cases e with
      | none =>
        exact newCryptoOk_trans h1 (newCryptoOk_cryptoLoop s c r rest st')
          (npreserve_cryptoLoop s c r rest st')
      | some u => exact h1

/-- C9: every crypto entity newly created while processing a row carries
`chain` equal to the row's `chain` column (default `"BTC"` when absent),
a node type `"{chain.lower()}_address"`, and the style looked up under
that key with the `btc_address` fallback. -/
theorem crypto_node_chain_style (r : Row) (st : BState) (k : Str) (n : NodeData)
    (h0 : lookupS k st.nodes = none)
    (h1 : lookupS k ((processRow r st).1).nodes = some n)
    (h2 : n.type_ = lit "crypto") :
    ∃ m : CryptoMeta, n.metadata = Meta.cry m ∧
      m.chain = chainStrOf r ∧
      n.node_type = toLower (chainStrOf r) ++ lit "_address" ∧
      n.size = (styleForCrypto n.node_type).size ∧
      n.color = (styleForCrypto n.node_type).color ∧
      n.shape = (styleForCrypto n.node_type).shape := by
  have hmain : NewCryptoOk (cellGetD r.chain (Cell.strV (lit "BTC"))) st
      (processRow r st).1 := by
    unfold processRow
    by_cases hs : normalizeDomain r.source_domain = []
    · simp only [if_pos hs]; exact NewCryptoOk.of_nodes_eq rfl
    · simp only [if_neg hs]
      set cc := cellGetD r.chain (Cell.strV (lit "BTC")) with hcc
      set src := normalizeDomain r.source_domain with hsrc
      have comp : ∀ (f g : BState → BState),
          (∀ x, NewCryptoOk cc x (f x) ∧ NPreserve x (f x)) →
          (∀ x, NewCryptoOk cc x (g x) ∧ NPreserve x (g x)) →
          ∀ x, NewCryptoOk cc x (g (f x)) ∧ NPreserve x (g (f x)) := by
        intro f g hf hg x
        exact ⟨newCryptoOk_trans (hf x).1 (hg (f x)).1 (hg (f x)).2,
               npreserve_trans (hf x).2 (hg (f x)).2⟩
      have hA : ∀ x : BState,
          NewCryptoOk cc x
            (createOrGetDomain x src (lit "source_domain") (domainMetaArgsOf r src)).2 ∧
          NPreserve x
            (createOrGetDomain x src (lit "source_domain") (domainMetaArgsOf r src)).2 :=
        fun x => ⟨newCryptoOk_createOrGetDomain cc x src _ _,
          npreserve_createOrGetDomain x src _ _⟩
      have hB : ∀ x : BState,
          NewCryptoOk cc x
            (if cellNotna (cellGetD r.lookalike_domain Cell.absent) = true then
              (parseDomainList r.lookalike_domain).foldl
                (fun acc d => createDomainRel src d (lit "lookalike_domain") r acc) x
            else x) ∧
          NPreserve x
            (if cellNotna (cellGetD r.lookalike_domain Cell.absent) = true then
              (parseDomainList r.lookalike_domain).foldl
                (fun acc d => createDomainRel src d (lit "lookalike_domain") r acc) x
            else x) := by
        intro x
        split
        · exact ⟨newCryptoOk_foldlRel cc src _ r _ x, npreserve_foldlRel src _ r _ x⟩
        · exact ⟨NewCryptoOk.of_nodes_eq rfl, npreserve_refl⟩
      have hC : ∀ x : BState,
          NewCryptoOk cc x
            (if cellNotna (cellGetD r.same_ip_domain Cell.absent) = true then
              (parseDomainList r.same_ip_domain).foldl
                (fun acc d => createDomainRel src d (lit "same_ip_domain") r acc) x
            else x) ∧
          NPreserve x
            (if cellNotna (cellGetD r.same_ip_domain Cell.absent) = true then
              (parseDomainList r.same_ip_domain).foldl
                (fun acc d => createDomainRel src d (lit "same_ip_domain") r acc) x
            else x) := by
        intro x
        split
        · exact ⟨newCryptoOk_foldlRel cc src _ r _ x, npreserve_foldlRel src _ r _ x⟩
        · exact ⟨NewCryptoOk.of_nodes_eq rfl, npreserve_refl⟩
      have hD : ∀ x : BState,
          NewCryptoOk cc x
            ((if cellNotna (cellGetD r.crypto_address Cell.absent) = true then
              processCryptoLoop src cc r (parseCryptoList r.crypto_address) x
            else (x, none)).1) ∧
          NPreserve x
            ((if cellNotna (cellGetD r.crypto_address Cell.absent) = true then
              processCryptoLoop src cc r (parseCryptoList r.crypto_address) x
            else (x, none)).1) := by
        intro x
        split
        · exact ⟨newCryptoOk_cryptoLoop src cc r _ x, npreserve_cryptoLoop src cc r _ x⟩
        · exact ⟨NewCryptoOk.of_nodes_eq rfl, npreserve_refl⟩
      have h12 := comp _ _ hA hB
      have h123 := comp _ _ h12 hC
      have h1234 := comp _ _ h123 hD
      exact (h1234 st).1
  obtain ⟨s, m, hcc, hmeta, hchain, htype, hsize, hcolor, hshape⟩ :=
    hmain k n h0 h1 h2
  have hs : chainStrOf r = s := by
    unfold chainStrOf
    rw [hcc]
  rw [← hs] at hchain htype
  exact ⟨m, hmeta, hchain, htype, hsize, hcolor, hshape⟩

def rowCW : Row :=
  { source_domain := Cell.strV (lit "a.com"),
    crypto_address := Cell.strV (lit "0xAB"),
    chain := Cell.strV (lit "ETH") }

def cryptoNodeW : NodeData :=
  mkCryptoNode (lit "0xAB") (lit "ETH") (Cell.strV [])

/-- Witness for C9 at an `ETH` row processed from the empty state. -/
theorem crypto_node_chain_style_witness :
    ∃ m : CryptoMeta, cryptoNodeW.metadata = Meta.cry m ∧
      m.chain = chainStrOf rowCW ∧
      cryptoNodeW.node_type = toLower (chainStrOf rowCW) ++ lit "_address" ∧
      cryptoNodeW.size = (styleForCrypto cryptoNodeW.node_type).size ∧
      cryptoNodeW.color = (styleForCrypto cryptoNodeW.node_type).color ∧
      cryptoNodeW.shape = (styleForCrypto cryptoNodeW.node_type).shape :=
  crypto_node_chain_style rowCW emptyState (lit "0xAB") cryptoNodeW
    (by decide) (by decide) (by decide)

/-! ### C1, C5, C6: the size-bounded selector -/

/-- The node list produced by `_smart_optimize_network`, spelled out. -/
theorem smartOptimize_nodes_eq (gd : GraphData) :
    (smartOptimizeNetwork gd).nodes =
      (let otherNodes := gd.nodes.filter (fun n => !(isPriority n))
       if otherNodes.length > 1500 then
         let sameIpNodes :=
           otherNodes.filter (fun n => cellEqStr n.domain_type (lit "same_ip_domain"))
         let targetSameIp := if sameIpNodes.length > 2000 then 1000 else 1200
         let sampleRate := max 1 (sameIpNodes.length / targetSameIp)
         gd.nodes.filter isPriority ++ everyNth sampleRate sameIpNodes
       else gd.nodes.filter isPriority ++ otherNodes) := rfl

/-- C1: after selection of an oversized graph, a link is kept iff both of
its endpoint ids are ids of selected nodes; in particular no kept link
dangles. -/
theorem selection_no_dangling_edges (gd : GraphData)
    (_hbig : 1000 < gd.nodes.length) :
    (∀ l ∈ (smartOptimizeNetwork gd).links,
      refId l.source ∈ (smartOptimizeNetwork gd).nodes.map GNode.id ∧
      refId l.target ∈ (smartOptimizeNetwork gd).nodes.map GNode.id) ∧
    (∀ l ∈ gd.links,
      (l ∈ (smartOptimizeNetwork gd).links ↔
        refId l.source ∈ (smartOptimizeNetwork gd).nodes.map GNode.id ∧
        refId l.target ∈ (smartOptimizeNetwork gd).nodes.map GNode.id)) := by
  have hlinks : (smartOptimizeNetwork gd).links = gd.links.filter
      (fun l => ((smartOptimizeNetwork gd).nodes.map GNode.id).elem (refId l.source) &&
        ((smartOptimizeNetwork gd).nodes.map GNode.id).elem (refId l.target)) := rfl
  constructor
  · intro l hl
    rw [hlinks] at hl
    have h := (List.mem_filter.mp hl).2
    rw [Bool.and_eq_true] at h
    exact ⟨List.elem_iff.mp h.1, List.elem_iff.mp h.2⟩
  · intro l hl
    rw [hlinks, List.mem_filter]
    constructor
    · intro h
      rw [Bool.and_eq_true] at h
      exact ⟨List.elem_iff.mp h.2.1, List.elem_iff.mp h.2.2⟩
    · intro h
      refine ⟨hl, ?_⟩
      rw [Bool.and_eq_true]
      exact ⟨List.elem_iff.mpr h.1, List.elem_iff.mpr h.2⟩

/-- C5: whenever the selector runs on an oversized graph, every node whose
(fallback-resolved) domain type is `source_domain` and every node whose
`type` is `crypto` survives selection. -/
theorem priority_nodes_retained (gd : GraphData)
    (_hbig : 1000 < gd.nodes.length) (n : GNode) (hn : n ∈ gd.nodes)
    (hp : cellEqStr (domainTypeOf n) (lit "source_domain") = true ∨
          cellEqStr (typeOf n) (lit "crypto") = true) :
    n ∈ (smartOptimizeNetwork gd).nodes := by
  have hprio : isPriority n = true := by
    unfold isPriority
    rcases hp with h | h
    · rw [if_pos h]
    · by_cases h1 : cellEqStr (domainTypeOf n) (lit "source_domain") = true
      · rw [if_pos h1]
      · rw [if_neg h1, if_pos h]
  have hmem : n ∈ gd.nodes.filter isPriority := List.mem_filter.mpr ⟨hn, hprio⟩
  rw [smartOptimize_nodes_eq]
  simp only
  split
  · exact List.mem_append_left _ hmem
  · exact List.mem_append_left _ hmem

def srcNodeW : GNode :=
  { id := lit "s", type_ := Cell.strV (lit "domain"),
    node_type := Cell.strV (lit "source_domain"),
    domain_type := Cell.strV (lit "source_domain") }

def linkW : GLink :=
  { source := NodeRef.strRef (lit "s"), target := NodeRef.strRef (lit "s") }

def gdBigW : GraphData :=
  { nodes := List.replicate 1001 srcNodeW, links := [linkW] }

/-- Witness for C1 at a 1001-node graph with one link. -/
theorem selection_no_dangling_edges_witness :
    linkW ∈ (smartOptimizeNetwork gdBigW).links ↔
      refId linkW.source ∈ (smartOptimizeNetwork gdBigW).nodes.map GNode.id ∧
      refId linkW.target ∈ (smartOptimizeNetwork gdBigW).nodes.map GNode.id :=
  (selection_no_dangling_edges gdBigW
      (by rw [show gdBigW.nodes = List.replicate 1001 srcNodeW from rfl,
        List.length_replicate]; norm_num)).2 linkW
    (List.mem_singleton.mpr rfl)

/-- Witness for C5: the source-domain node of the 1001-node graph is kept. -/
theorem priority_nodes_retained_witness :
    srcNodeW ∈ (smartOptimizeNetwork gdBigW).nodes :=
  priority_nodes_retained gdBigW
    (by rw [show gdBigW.nodes = List.replicate 1001 srcNodeW from rfl,
      List.length_replicate]; norm_num)
    srcNodeW
    (by rw [show gdBigW.nodes = List.replicate 1001 srcNodeW from rfl]
        exact List.mem_replicate.mpr ⟨by norm_num, rfl⟩)
    (Or.inl (by decide))

/-! ### C6 lemmas -/

theorem filterReplicate (p : α → Bool) (n : Nat) (a : α) :
    (List.replicate n a).filter p =
      if p a then List.replicate n a else [] := by
  induction n with
  | zero => simp
  | succ m ih =>
    rw [List.replicate_succ, List.filter_cons]
    by_cases h : p a
    · rw [if_pos h, if_pos h, ih, if_pos h]
    · rw [if_neg h, if_neg h, ih, if_neg h]

theorem everyNth_one : ∀ (l : List α), everyNth 1 l = l
  | [] => rfl
  | a :: rest => by
    rw [everyNth_cons]
    simp only [Nat.sub_self, List.drop_zero]
    rw [everyNth_one rest]

theorem everyNth_getElem (k : Nat) (hk : 0 < k) :
    ∀ (j : Nat) (l : List α), (everyNth k l)[j]? = l[j * k]? := by
  intro j
  induction j with
  | zero =>
    intro l
    cases l with
    | nil => rfl
    | cons a rest => rw [everyNth_cons]; simp
  | succ j ih =>
    intro l
    cases l with
    | nil => rfl
    | cons a rest =>
      rw [everyNth_cons]
      have harith : (j + 1) * k = (k - 1 + j * k) + 1 := by
        rw [Nat.succ_mul]
        omega
      rw [harith, List.getElem?_cons_succ, List.getElem?_cons_succ, ih,
        List.getElem?_drop]

def otherNodesOf (gd : GraphData) : List GNode :=
  gd.nodes.filter (fun n => !(isPriority n))

def sameIpNodesOf (gd : GraphData) : List GNode :=
  (otherNodesOf gd).filter (fun n => cellEqStr n.domain_type (lit "same_ip_domain"))

def sampleRateOf (gd : GraphData) : Nat :=
  max 1 ((sameIpNodesOf gd).length /
    (if (sameIpNodesOf gd).length > 2000 then 1000 else 1200))

/-- C6 (amended): when the non-priority nodes exceed 1500, the selector
keeps every priority node (including every lookalike-domain node — with no
cap), keeps every `N`-th same-IP node with `N = max 1 (count / target)`
(floor division; `target` is 1000 when the same-IP count exceeds 2000,
else 1200), and drops the remaining other nodes; the sampled sublist is
exactly the positions that are multiples of `N`.  When the other nodes are
within 1500, all of them are kept unchanged.  The selection is a pure
function of the input ordering. -/
theorem stride_sampling_selection (gd : GraphData) :
    (1500 < (otherNodesOf gd).length →
      (smartOptimizeNetwork gd).nodes =
        gd.nodes.filter isPriority ++
          everyNth (sampleRateOf gd) (sameIpNodesOf gd) ∧
      (∀ j : Nat, (everyNth (sampleRateOf gd) (sameIpNodesOf gd))[j]? =
        (sameIpNodesOf gd)[j * sampleRateOf gd]?)) ∧
    ((otherNodesOf gd).length ≤ 1500 →
      (smartOptimizeNetwork gd).nodes =
        gd.nodes.filter isPriority ++ otherNodesOf gd) := by
  have hrate : 0 < sampleRateOf gd := by
    unfold sampleRateOf
    omega
  constructor
  · intro h
    unfold otherNodesOf at h
    constructor
    · rw [smartOptimize_nodes_eq]
      simp only
      rw [if_pos (by exact h)]
      rfl
    · intro j
      exact everyNth_getElem (sampleRateOf gd) hrate j (sameIpNodesOf gd)
  · intro h
    unfold otherNodesOf at h
    rw [smartOptimize_nodes_eq]
    simp only
    rw [if_neg (by omega)]
    rfl

def cx6Node : GNode :=
  { id := lit "d", type_ := Cell.strV (lit "domain"),
    node_type := Cell.strV (lit "same_ip_domain"),
    domain_type := Cell.strV (lit "same_ip_domain") }

def cx6 : GraphData := { nodes := List.replicate 1801 cx6Node, links := [] }

/-- Modelled from the spec's words for C6 only (the claim under test):
stride sampling with `N = ceil(count / target)`, target 1000 when the
count exceeds 2000 and 1200 otherwise. -/
def specCeilStrideSample (l : List GNode) : List GNode :=
  let target := if l.length > 2000 then 1000 else 1200
  everyNth ((l.length + target - 1) / target) l

theorem everyNth_two_replicate (x : α) :
    ∀ m : Nat, (everyNth 2 (List.replicate (2 * m + 1) x)).length = m + 1
  | 0 => by
    rw [show 2 * 0 + 1 = 1 from rfl, List.replicate_succ, List.replicate_zero,
      everyNth_cons]
    rfl
  | m + 1 => by
    rw [show 2 * (m + 1) + 1 = (2 * m + 1) + 1 + 1 by omega,
      List.replicate_succ, everyNth_cons]
    simp only [List.length_cons]
    rw [List.replicate_succ, show (2 : Nat) - 1 = 0 + 1 from rfl, List.drop_succ_cons,
      List.drop_zero]
    rw [everyNth_two_replicate x m]

/-- Counterexample for C6 as stated: on 1801 same-IP nodes the code's
stride is `max 1 (1801 / 1200) = 1` (floor), keeping all 1801 nodes,
whereas the claimed `ceil(1801 / 1200) = 2` stride would keep 901. -/
theorem ceil_stride_claim_false :
    (smartOptimizeNetwork cx6).nodes.length = 1801 ∧
    (specCeilStrideSample (sameIpNodesOf cx6)).length = 901 ∧
    (1801 : Nat) ≠ 901 := by
  have hpr : cx6.nodes.filter isPriority = [] := by
    rw [show cx6.nodes = List.replicate 1801 cx6Node from rfl, filterReplicate,
      if_neg (by decide)]
  have hot : cx6.nodes.filter (fun n => !(isPriority n)) =
      List.replicate 1801 cx6Node := by
    rw [show cx6.nodes = List.replicate 1801 cx6Node from rfl, filterReplicate,
      if_pos (by decide)]
  have hsame : sameIpNodesOf cx6 = List.replicate 1801 cx6Node := by
    unfold sameIpNodesOf otherNodesOf
    rw [hot, filterReplicate, if_pos (by decide)]
  refine ⟨?_, ?_, by omega⟩
  · rw [smartOptimize_nodes_eq]
    simp only [hot, hpr]
    rw [if_pos (by rw [List.length_replicate]; norm_num)]
    rw [show (List.replicate 1801 cx6Node).filter
        (fun n => cellEqStr n.domain_type (lit "same_ip_domain")) =
        List.replicate 1801 cx6Node by
      rw [filterReplicate, if_pos (by decide)]]
    simp only [List.length_replicate]
    rw [show ((if 1801 > 2000 then 1000 else 1200) : Nat) = 1200 by norm_num]
    rw [show max 1 (1801 / 1200) = 1 by norm_num]
    rw [everyNth_one]
    rw [List.nil_append, List.length_replicate]
  · rw [hsame]
    unfold specCeilStrideSample
    simp only [List.length_replicate]
    rw [show ((if 1801 > 2000 then 1000 else 1200) : Nat) = 1200 by norm_num]
    rw [show (1801 + 1200 - 1) / 1200 = 2 by norm_num]
    rw [show (1801 : Nat) = 2 * 900 + 1 by norm_num]
    rw [everyNth_two_replicate]

/-- Witness for the amended C6, at a large all-same-IP input (first branch)
and a small input (second branch). -/
theorem stride_sampling_selection_witness :
    ((smartOptimizeNetwork cx6).nodes =
      cx6.nodes.filter isPriority ++
        everyNth (sampleRateOf cx6) (sameIpNodesOf cx6) ∧
      (∀ j : Nat, (everyNth (sampleRateOf cx6) (sameIpNodesOf cx6))[j]? =
        (sameIpNodesOf cx6)[j * sampleRateOf cx6]?)) ∧
    (smartOptimizeNetwork { nodes := [cx6Node], links := [] }).nodes =
      ([cx6Node] : List GNode).filter isPriority ++
        otherNodesOf { nodes := [cx6Node], links := [] } := by
  constructor
  · refine (stride_sampling_selection cx6).1 ?_
    have hot : cx6.nodes.filter (fun n => !(isPriority n)) =
        List.replicate 1801 cx6Node := by
      rw [show cx6.nodes = List.replicate 1801 cx6Node from rfl, filterReplicate,
        if_pos (by decide)]
    unfold otherNodesOf
    rw [hot, List.length_replicate]
    norm_num
  · exact (stride_sampling_selection { nodes := [cx6Node], links := [] }).2
      (by decide)

/-! ### C4: the `HTTPS://WWW. … /` wrapping identity -/

theorem sw_append (p t : Str) : startsWith p (p ++ t) = true := by
  induction p with
  | nil => rfl
  | cons a ps ih => simp [startsWith, ih]

theorem sw_nil_false {p : Str} (hp : p ≠ []) : startsWith p [] = false := by
  cases p with
  | nil => exact absurd rfl hp
  | cons a ps => rfl

theorem cp_false_iff (p : Str) :
    ∀ s : Str, containsPat p s = false ↔
      ∀ j, startsWith p (s.drop j) = false
  | [] => by
    simp only [containsPat, List.drop_nil]
    exact ⟨fun h _ => h, fun h => h 0⟩
  | c :: rest => by
    simp only [containsPat, Bool.or_eq_false_iff]
    rw [cp_false_iff p rest]
    constructor
    · intro h j
      cases j with
      | zero => exact h.1
      | succ j => rw [List.drop_succ_cons]; exact h.2 j
    · intro h
      refine ⟨h 0, fun j => ?_⟩
      have := h (j + 1)
      rwa [List.drop_succ_cons] at this

theorem sw_snoc {p : Str} :
    ∀ {t : Str} {x : Char}, startsWith p (t ++ [x]) = true →
      startsWith p t = true ∨ p = t ++ [x] := by
  induction p with
  | nil => intro t x _; exact Or.inl rfl
  | cons a ps ih =>
    intro t x h
    cases t with
    | nil =>
      simp only [List.nil_append, startsWith, Bool.and_eq_true, beq_iff_eq] at h
      obtain ⟨rfl, hps⟩ := h
      cases ps with
      | nil => exact Or.inr rfl
      | cons b ps' => exact absurd hps (by simp [startsWith])
    | cons b ts =>
      simp only [List.cons_append, startsWith, Bool.and_eq_true, beq_iff_eq] at h
      obtain ⟨rfl, hps⟩ := h
      rcases ih hps with h1 | h1
      · exact Or.inl (by simp [startsWith, h1])
      · exact Or.inr (by rw [h1, List.cons_append])

theorem replaceAll_no_occ {p : Str} :
    ∀ {s : Str}, containsPat p s = false → replaceAll p s = s := by
  intro s
  induction s with
  | nil => intro _; rfl
  | cons c rest ih =>
    intro h
    simp only [containsPat, Bool.or_eq_false_iff] at h
    rw [replaceAll_cons, h.1]
    simp only [Bool.false_and, Bool.false_eq_true, if_false]
    rw [ih h.2]

theorem replaceAll_head {p : Str} (hp : p ≠ []) (t : Str) :
    replaceAll p (p ++ t) = replaceAll p t := by
  obtain ⟨a, ps, rfl⟩ : ∃ a ps, p = a :: ps := by
    cases p with
    | nil => exact absurd rfl hp
    | cons a ps => exact ⟨a, ps, rfl⟩
  rw [List.cons_append, replaceAll_cons]
  rw [show startsWith (a :: ps) (a :: (ps ++ t)) = true from sw_append (a :: ps) t]
  simp only [ne_eq, reduceCtorEq, not_false_eq_true, bne_iff_ne, Bool.true_and,
    if_true]
  rw [show (a :: ps : Str).length - 1 = ps.length from by simp]
  rw [List.drop_left]

theorem rstripIf_concat_neg {p : Char → Bool} {c : Char} (h : p c = false)
    (l : Str) : rstripIf p (l ++ [c]) = l ++ [c] := by
  unfold rstripIf
  rw [List.reverse_append]
  simp only [List.reverse_cons, List.reverse_nil, List.nil_append,
    List.singleton_append]
  rw [List.dropWhile_cons, h]
  simp only [Bool.false_eq_true, if_false]
  rw [List.reverse_cons, List.reverse_reverse]

theorem rstripIf_concat_pos {p : Char → Bool} {c : Char} (h : p c = true)
    (l : Str) : rstripIf p (l ++ [c]) = rstripIf p l := by
  unfold rstripIf
  rw [List.reverse_append]
  simp only [List.reverse_cons, List.reverse_nil, List.nil_append,
    List.singleton_append]
  rw [List.dropWhile_cons, h]
  simp

theorem stripWS_no_ws_ends (c : Char) (mid : Str) (z : Char)
    (hc : isWS c = false) (hz : isWS z = false) :
    stripWS (c :: (mid ++ [z])) = c :: (mid ++ [z]) := by
  unfold stripWS
  rw [List.dropWhile_cons, hc]
  simp only [Bool.false_eq_true, if_false]
  rw [show c :: (mid ++ [z]) = (c :: mid) ++ [z] from rfl]
  exact rstripIf_concat_neg hz (c :: mid)

theorem stripWWW_append (t : Str) : stripWWW (wwwDot ++ t) = t := by
  unfold stripWWW
  rw [if_pos (sw_append wwwDot t)]
  exact List.drop_left wwwDot t

theorem stripWWW_not {s : Str} (h : startsWith wwwDot s = false) :
    stripWWW s = s := by
  unfold stripWWW
  rw [h]
  simp

theorem endsWith_drop (e : Str) (j : Nat) : endsWith (e.drop j) e = true := by
  unfold endsWith
  have hsplit : e.reverse = (e.drop j).reverse ++ (e.take j).reverse := by
    rw [← List.reverse_append, List.take_append_drop]
  rw [hsplit]
  exact sw_append _ _

theorem cp_concat_slash_false {p e : Str} (hp : p ≠ [])
    (hc : containsPat p e = false)
    (hend : endsWith p.dropLast e = false) :
    containsPat p (e ++ ['/']) = false := by
  have hc' := (cp_false_iff p e).mp hc
  rw [cp_false_iff]
  intro j
  by_cases hj : j ≤ e.length
  · rw [List.drop_append_eq_append_drop, Nat.sub_eq_zero_of_le hj,
      List.drop_zero]
    by_contra hswt
    rw [Bool.not_eq_false] at hswt
    rcases sw_snoc hswt with h1 | h1
    · exact absurd h1 (by rw [hc' j]; simp)
    · have hdl : p.dropLast = e.drop j := by
        rw [h1, List.dropLast_concat]
      rw [hdl] at hend
      rw [endsWith_drop e j] at hend
      exact absurd hend (by simp)
  · rw [List.drop_append_eq_append_drop,
      List.drop_eq_nil_of_le (by omega : e.length ≤ j),
      List.drop_eq_nil_of_le (by simp; omega), List.nil_append]
    exact sw_nil_false hp

theorem cp_www_wrap_false (ps e : Str)
    (hc : containsPat ('h' :: ps) e = false)
    (hend : endsWith (('h' :: ps : Str)).dropLast e = false) :
    containsPat ('h' :: ps) (wwwDot ++ (e ++ ['/'])) = false := by
  have h9 : containsPat ('h' :: ps) (e ++ ['/']) = false :=
    cp_concat_slash_false (by simp) hc hend
  show containsPat ('h' :: ps) ('w' :: 'w' :: 'w' :: '.' :: (e ++ ['/'])) = false
  simp only [containsPat, startsWith]
  rw [show (('h' == 'w') : Bool) = false from by decide,
    show (('h' == '.') : Bool) = false from by decide]
  simp [h9]

def upPre : Str := ['H', 'T', 'T', 'P', 'S', ':', '/', '/', 'W', 'W', 'W', '.']

/-- C4 (amended): the wrapping identity
`normalize("HTTPS://WWW." + d + "/") = normalize(d)` holds for every domain
string `d` that carries no leading/trailing whitespace, whose lowercase
form neither contains `https://` or `http://` nor ends in `https:/` or
`http:/`, and whose lowercase form does not start with `www.`. -/
theorem normalize_wrap_identity (d : Str)
    (h1 : stripWS d = d)
    (h2 : containsPat httpsPat (toLower d) = false)
    (h3 : containsPat httpPat (toLower d) = false)
    (h4 : endsWith httpsPat.dropLast (toLower d) = false)
    (h5 : endsWith httpPat.dropLast (toLower d) = false)
    (h6 : startsWith wwwDot (toLower d) = false) :
    normStr (upPre ++ d ++ ['/']) = normStr d := by
  have hstrip : stripWS (upPre ++ d ++ ['/']) = upPre ++ d ++ ['/'] := by
    rw [show upPre ++ d ++ ['/'] =
      'H' :: ((['T', 'T', 'P', 'S', ':', '/', '/', 'W', 'W', 'W', '.'] ++ d) ++ ['/'])
      from by simp [upPre]]
    exact stripWS_no_ws_ends 'H' _ '/' (by decide) (by decide)
  have hlow : toLower (upPre ++ d ++ ['/']) =
      httpsPat ++ (wwwDot ++ (toLower d ++ ['/'])) := by
    unfold toLower
    rw [List.map_append, List.map_append]
    rw [show List.map lowerChar upPre = httpsPat ++ wwwDot from by decide,
      show List.map lowerChar ['/'] = ['/'] from by decide]
    simp [List.append_assoc]
  have hreps : replaceAll httpsPat
      (httpsPat ++ (wwwDot ++ (toLower d ++ ['/']))) =
      wwwDot ++ (toLower d ++ ['/']) := by
    rw [replaceAll_head (by decide)]
    exact replaceAll_no_occ (cp_www_wrap_false _ _ h2 h4)
  have hrep2 : replaceAll httpPat (wwwDot ++ (toLower d ++ ['/'])) =
      wwwDot ++ (toLower d ++ ['/']) :=
    replaceAll_no_occ (cp_www_wrap_false _ _ h3 h5)
  unfold normStr
  rw [hstrip, hlow, hreps, hrep2, stripWWW_append,
    rstripIf_concat_pos (by decide) (toLower d)]
  rw [h1, replaceAll_no_occ h2, replaceAll_no_occ h3, stripWWW_not h6]

/-- Counterexample for C4 as stated: for `d = "www.x"` the wrapped form
normalizes to `"www.x"` while `d` itself normalizes to `"x"`. -/
theorem normalize_wrap_identity_false :
    normStr (upPre ++ lit "www.x" ++ ['/']) ≠ normStr (lit "www.x") := by
  decide

/-- Witness for the amended C4 at `d = "example.com"`. -/
theorem normalize_wrap_identity_witness :
    normStr (upPre ++ lit "example.com" ++ ['/']) = normStr (lit "example.com") :=
  normalize_wrap_identity (lit "example.com") (by decide) (by decide)
    (by decide) (by decide) (by decide) (by decide)

end Globe
